import Mathlib

/-!
Verification of the `mpp_dspy` package (meta-prompting-protocol repository)
against its natural-language specification.

Python strings are embedded as `List Char` (`Str`); Python `str.find` becomes
`findFrom`; fallible code returns `Except String`.  Each definition is a
shallow embedding of the function of the same name in the sources, translated
statement by statement.
-/

set_option maxRecDepth 4000

abbrev Str := List Char

def toStr (s : String) : Str := s.toList

/-- Python `str.strip()` (default whitespace stripping). -/
def stripWs (s : Str) : Str :=
  ((s.dropWhile Char.isWhitespace).reverse.dropWhile Char.isWhitespace).reverse

/-- Python pySlice `s[a:b]` (for the in-bounds, `a ≤ b` uses in the sources). -/
def pySlice (s : Str) (a b : Nat) : Str := (s.drop a).take (b - a)

/-- Index of the first occurrence of `pat` in `s`, if any. -/
def find1 (s pat : Str) : Option Nat :=
  if pat.isPrefixOf s then some 0
  else
    match s with
    | [] => none
    | _ :: t => (find1 t pat).map (· + 1)

/-- Python `s.find(pat, pos)`: first occurrence of `pat` at index `≥ pos`
(`none` plays the role of Python's `-1`). -/
def findFrom (s pat : Str) (pos : Nat) : Option Nat :=
  (find1 (s.drop pos) pat).map (· + pos)

/-! ## Template engine (`src/mpp_dspy/template_tokens.py`) -/

def TOKEN_START : Str := toStr "\x7b\x7bMPP_MUTABLE:"
def TOKEN_END : Str := toStr "\x7b\x7b/MPP_MUTABLE\x7d\x7d"
def TWO_BRACE : Str := toStr "\x7d\x7d"

/-- `MutableBlock` dataclass.  `stop` embeds the Python field `end`
(a reserved word in Lean). -/
structure MutableBlock where
  name : Str
  content : Str
  start : Nat
  stop : Nat
  deriving Repr, DecidableEq

/-- Loop body of `_parse_blocks`, with the `while True` loop realised by
fuel-indexed recursion (each iteration advances `pos` by at least 32, so
`template.length + 1` units of fuel always suffice). -/
def parseBlocksAux (template : Str) : Nat → Nat → Except String (List MutableBlock)
  | 0, _ => Except.error "fuel exhausted"
  | fuel + 1, pos =>
    match findFrom template TOKEN_START pos with
    | none => Except.ok []
    | some start =>
      let nameStart := start + TOKEN_START.length
      match findFrom template TWO_BRACE nameStart with
      | none => Except.error "Unclosed MPP_MUTABLE start token."
      | some nameEnd =>
        let name := stripWs (pySlice template nameStart nameEnd)
        if name = [] then Except.error "MPP_MUTABLE block name cannot be empty."
        else
          match findFrom template TOKEN_END (nameEnd + 2) with
          | none =>
            Except.error ("Missing end token for block " ++ String.mk name ++ ".")
          | some endPos =>
            let content := pySlice template (nameEnd + 2) endPos
            let stop := endPos + TOKEN_END.length
            match parseBlocksAux template fuel stop with
            | Except.error e => Except.error e
            | Except.ok rest =>
              Except.ok (⟨name, content, start, stop⟩ :: rest)

/-- `_parse_blocks(template)`. -/
def parse_blocks (template : Str) : Except String (List MutableBlock) :=
  parseBlocksAux template (template.length + 1) 0

/-- First-match association-list lookup (Python `dict` access; the dicts
involved have unique keys). -/
def lookupStr (m : List (Str × Str)) (k : Str) : Option Str :=
  match m with
  | [] => none
  | (k', v) :: rest => if k' = k then some v else lookupStr rest k

/-- Python dict insertion `d[k] = v` (overwrite in place, else append). -/
def dictInsert (m : List (Str × Str)) (k : Str) (v : Str) : List (Str × Str) :=
  match m with
  | [] => [(k, v)]
  | (k', v') :: rest =>
    if k' = k then (k', v) :: rest else (k', v') :: dictInsert rest k v

/-- `{block.name: block.content for block in blocks}` — later blocks win. -/
def dictOfBlocks (blocks : List MutableBlock) : List (Str × Str) :=
  blocks.foldl (fun d b => dictInsert d b.name b.content) []

/-- `extract_mutable_blocks(template)`. -/
def extract_mutable_blocks (template : Str) :
    Except String (List (Str × Str)) :=
  (parse_blocks template).map dictOfBlocks

/-- `list_mutable_blocks(template)`. -/
def list_mutable_blocks (template : Str) : Except String (List Str) :=
  (parse_blocks template).map (List.map MutableBlock.name)

/-- `replacements.get(block.name, block.content)`. -/
def chosenContent (replacements : List (Str × Str)) (b : MutableBlock) : Str :=
  (lookupStr replacements b.name).getD b.content

/-- The `for block in blocks` accumulation loop of `render_mutable_template`. -/
def renderChunks (template : Str) (replacements : List (Str × Str)) :
    List MutableBlock → Nat → Str
  | [], pos => pySlice template pos template.length
  | b :: bs, pos =>
    pySlice template pos b.start ++ chosenContent replacements b ++
      renderChunks template replacements bs b.stop

/-- `render_mutable_template(template, replacements)`. -/
def render_mutable_template (template : Str) (replacements : List (Str × Str)) :
    Except String Str :=
  match parse_blocks template with
  | Except.error e => Except.error e
  | Except.ok blocks =>
    if blocks.isEmpty then Except.ok template
    else Except.ok (renderChunks template replacements blocks 0)

/-- `render_mutable_template(template, extract_mutable_blocks(template))` —
the round-trip of spec §8. -/
def roundTrip (template : Str) : Except String Str := do
  let d ← extract_mutable_blocks template
  render_mutable_template template d

instance {ε α : Type} [DecidableEq ε] [DecidableEq α] : DecidableEq (Except ε α) :=
  fun a b =>
    match a, b with
    | .error e₁, .error e₂ =>
      if h : e₁ = e₂ then isTrue (by rw [h]) else isFalse (by simp [h])
    | .ok v₁, .ok v₂ =>
      if h : v₁ = v₂ then isTrue (by rw [h]) else isFalse (by simp [h])
    | .error _, .ok _ => isFalse (fun h => Except.noConfusion h)
    | .ok _, .error _ => isFalse (fun h => Except.noConfusion h)

/-! ## JSON values

Python values handled by the pipeline (parsed JSON, bundle fields) are
embedded as a mutual inductive so that all recursions are structural. -/

/-- Lexicographic code-point comparison of strings (Python `<` on `str`,
the order used by `sorted` and by `json.dumps(sort_keys=True)`). -/
def charsLtB : List Char → List Char → Bool
  | [], [] => false
  | [], _ :: _ => true
  | _ :: _, [] => false
  | c :: cs, d :: ds =>
    if c.toNat < d.toNat then true
    else if d.toNat < c.toNat then false
    else charsLtB cs ds

def strLtB (a b : String) : Bool := charsLtB a.toList b.toList

mutual
inductive JVal where
  | null : JVal
  | bool (b : Bool) : JVal
  | num (n : Int) : JVal
  | str (s : String) : JVal
  | arr (xs : JList) : JVal
  | obj (kvs : JObj) : JVal
  deriving Repr, DecidableEq
inductive JList where
  | nil : JList
  | cons (hd : JVal) (tl : JList) : JList
  deriving Repr, DecidableEq
inductive JObj where
  | nil : JObj
  | cons (k : String) (v : JVal) (tl : JObj) : JObj
  deriving Repr, DecidableEq
end

/-- Entries of an object, in insertion order (Python dict iteration order). -/
def JObj.entries : JObj → List (String × JVal)
  | .nil => []
  | .cons k v rest => (k, v) :: JObj.entries rest

/-- `list(d.keys())`. -/
def JObj.keys : JObj → List String
  | .nil => []
  | .cons k _ rest => k :: JObj.keys rest

/-- `d[k]` / `d.get(k)` (dicts built from JSON have unique keys, so first
match is the match). -/
def lookupJ : JObj → String → Option JVal
  | .nil, _ => none
  | .cons k' v rest, k => if k' = k then some v else lookupJ rest k

/-- Python `d.get(k)` where a stored JSON `null` also surfaces as `None`. -/
def getNonNull (o : JObj) (k : String) : Option JVal :=
  match lookupJ o k with
  | some .null => none
  | some v => some v
  | none => none

def JList.toListJ : JList → List JVal
  | .nil => []
  | .cons x xs => x :: JList.toListJ xs

/-- Python truthiness of a JSON-shaped value. -/
def truthyJ : JVal → Bool
  | .null => false
  | .bool b => b
  | .num n => n != 0
  | .str s => s ≠ ""
  | .arr .nil => false
  | .arr _ => true
  | .obj .nil => false
  | .obj _ => true

/-- `_is_string_list(value)`, returning the strings on success. -/
def listToStrings : JVal → Option (List String)
  | .arr xs => go xs
  | _ => none
where
  go : JList → Option (List String)
    | .nil => some []
    | .cons (.str s) rest => (go rest).map (s :: ·)
    | .cons _ _ => none

/-- Python `"x" in value` for the shapes that occur in the sources
(`list` membership, `str` substring, `dict` key membership). -/
def containsStr (v : JVal) (x : String) : Bool :=
  match v with
  | .arr xs => go xs
  | .str s => (find1 s.toList x.toList).isSome
  | .obj o => (lookupJ o x).isSome
  | _ => false
where
  go : JList → Bool
    | .nil => false
    | .cons (.str s) rest => if s = x then true else go rest
    | .cons _ rest => go rest

/-- First-occurrence deduplication (the effect of Python `set(...)` before
`sorted`, whose result order is fixed by the sort). -/
def dedupStr : List String → List String
  | [] => []
  | x :: xs => x :: (dedupStr xs).filter (· ≠ x)

/-- Ascending insertion sort by code points (Python `sorted`). -/
def insertStr (x : String) : List String → List String
  | [] => [x]
  | y :: ys => if strLtB y x then y :: insertStr x ys else x :: y :: ys

def sortStrings : List String → List String
  | [] => []
  | x :: xs => insertStr x (sortStrings xs)

/-- `", ".join(xs)`. -/
def joinComma : List String → String
  | [] => ""
  | [x] => x
  | x :: xs => x ++ ", " ++ joinComma xs

/-- Insertion into a key-sorted object (helper for `canon`). -/
def insertKV (k : String) (v : JVal) : JObj → JObj
  | .nil => .cons k v .nil
  | .cons k' v' rest =>
    if strLtB k k' then .cons k v (.cons k' v' rest)
    else .cons k' v' (insertKV k v rest)

/- `canon` recursively sorts all object keys: `json.dumps(v, sort_keys=True)`
and `json.dumps(w, sort_keys=True)` produce the same text exactly when
`canon v = canon w`, which is how the canonical re-encoding of
`_normalize_response_for_stability` is embedded. -/
mutual
def canon : JVal → JVal
  | .obj kvs => .obj (canonObj kvs)
  | .arr xs => .arr (canonList xs)
  | .null => .null
  | .bool b => .bool b
  | .num n => .num n
  | .str s => .str s
def canonList : JList → JList
  | .nil => .nil
  | .cons x xs => .cons (canon x) (canonList xs)
def canonObj : JObj → JObj
  | .nil => .nil
  | .cons k v xs => insertKV k (canon v) (canonObj xs)
end

/- `dumpsJ` embeds `json.dumps(v, ensure_ascii=True, separators=(",", ":"))`
(string escaping is not modelled; no claim depends on it). -/
mutual
def dumpsJ : JVal → String
  | .null => "null"
  | .bool true => "true"
  | .bool false => "false"
  | .num n => toString n
  | .str s => "\"" ++ s ++ "\""
  | .arr xs => "[" ++ dumpsList xs ++ "]"
  | .obj kvs => "\x7b" ++ dumpsObj kvs ++ "\x7d"
def dumpsList : JList → String
  | .nil => ""
  | .cons x .nil => dumpsJ x
  | .cons x xs => dumpsJ x ++ "," ++ dumpsList xs
def dumpsObj : JObj → String
  | .nil => ""
  | .cons k v .nil => "\"" ++ k ++ "\":" ++ dumpsJ v
  | .cons k v xs => "\"" ++ k ++ "\":" ++ dumpsJ v ++ "," ++ dumpsObj xs
end

/-! ## Bundle validation (`src/mpp_dspy/validations.py`)

Specs and payloads are Python dicts of JSON-shaped values, embedded as
`JObj` (insertion-ordered, unique keys). -/

def REQUIRED_SPEC_FIELDS : List String :=
  ["protocol_name", "abstract", "tag_definition_schema", "core_tag_library",
   "processor_semantics", "guiding_principles"]

def ALLOWED_SPEC_FIELDS : List String :=
  REQUIRED_SPEC_FIELDS ++ ["protocol_version", "payload_order", "processor_pipeline"]

/-- `_require_mapping(spec["core_tag_library"], ...)`. -/
def requireCoreLib (spec : JObj) : Except String JObj :=
  match lookupJ spec "core_tag_library" with
  | some (.obj o) => .ok o
  | some _ =>
    .error "derivative_protocol_specification.core_tag_library must be a mapping"
  | none => .error "KeyError: core_tag_library"

/-- `_require_keys(spec, REQUIRED_SPEC_FIELDS, ...)`. -/
def requireSpecKeys (spec : JObj) : Except String Unit :=
  let missing := REQUIRED_SPEC_FIELDS.filter (fun k => (lookupJ spec k).isNone)
  if missing ≠ [] then
    .error ("derivative_protocol_specification is missing required keys: " ++
      joinComma missing)
  else .ok ()

/-- Unknown top-level spec keys check. -/
def checkExtraSpecKeys (spec : JObj) : Except String Unit :=
  let extra := sortStrings (dedupStr
    ((JObj.keys spec).filter (fun k => ¬ ALLOWED_SPEC_FIELDS.contains k)))
  if extra ≠ [] then
    .error ("derivative_protocol_specification has unknown keys: " ++ joinComma extra)
  else .ok ()

/-- `isinstance(required_value, bool)` for `tag_map.get("required", True)`
(an absent key defaults to the boolean `True`). -/
def requiredFieldOk : Option JVal → Bool
  | none => true
  | some (.bool _) => true
  | some _ => false

/-- `processor not in processor_semantics`, negated: the tag's `processor`
value is a string naming a defined processor. -/
def processorRefOk (t sem : JObj) : Bool :=
  match lookupJ t "processor" with
  | some (.str p) => (lookupJ sem p).isSome
  | _ => false

/-- The per-tag loop of `validate_derivative_spec` over `core_tag_library`. -/
def checkTagDefs (schemaFields : List String) (sem : JObj) : JObj → Except String Unit
  | .nil => .ok ()
  | .cons tag v rest =>
    match v with
    | .obj t =>
      if ¬ requiredFieldOk (lookupJ t "required") then
        .error ("tag " ++ tag ++ " required must be a boolean when provided")
      else
        let missingFields := sortStrings
          ((dedupStr schemaFields).filter (fun f => (lookupJ t f).isNone))
        if missingFields ≠ [] then
          .error ("tag " ++ tag ++ " is missing required fields: " ++
            joinComma missingFields)
        else if schemaFields.contains "processor" ∧ ¬ processorRefOk t sem then
          .error ("tag " ++ tag ++ " references undefined processor")
        else checkTagDefs schemaFields sem rest
    | _ => .error ("core_tag_library[" ++ tag ++ "] must be a mapping")

/-- `protocol_version` type check. -/
def checkProtocolVersion (spec : JObj) : Except String Unit :=
  match getNonNull spec "protocol_version" with
  | none => .ok ()
  | some (.str _) => .ok ()
  | some _ => .error "protocol_version must be a string when provided"

/-- `payload_order` checks inside `validate_derivative_spec`. -/
def checkPayloadOrderSpec (spec core : JObj) : Except String Unit :=
  match getNonNull spec "payload_order" with
  | none => .ok ()
  | some v =>
    match listToStrings v with
    | none => .error "payload_order must be an array of strings when provided"
    | some xs =>
      if xs.length ≠ (dedupStr xs).length then
        .error "payload_order must not contain duplicate entries"
      else
        let unknown := sortStrings (dedupStr
          (xs.filter (fun t => (lookupJ core t).isNone)))
        if unknown ≠ [] then
          .error ("payload_order includes unknown tags: " ++ joinComma unknown)
        else .ok ()

/-- `processor_pipeline` checks inside `validate_derivative_spec`. -/
def checkPipelineSpec (spec sem : JObj) : Except String Unit :=
  match getNonNull spec "processor_pipeline" with
  | none => .ok ()
  | some v =>
    match listToStrings v with
    | none => .error "processor_pipeline must be an array of strings when provided"
    | some pp =>
      if (getNonNull spec "payload_order").isNone then
        .error "processor_pipeline requires payload_order to define ordering"
      else if pp.length ≠ (dedupStr pp).length then
        .error "processor_pipeline must not contain duplicate entries"
      else
        let unknown := sortStrings (dedupStr
          (pp.filter (fun p => (lookupJ sem p).isNone)))
        if unknown ≠ [] then
          .error ("processor_pipeline includes unknown processors: " ++
            joinComma unknown)
        else .ok ()

/-- `validate_derivative_spec(spec)`. -/
def validate_derivative_spec (spec : JObj) : Except String Unit := do
  requireSpecKeys spec
  checkExtraSpecKeys spec
  match listToStrings ((lookupJ spec "tag_definition_schema").getD .null) with
  | none => throw "tag_definition_schema must be an array of strings"
  | some schemaFields => do
    let core ← requireCoreLib spec
    let sem ←
      match lookupJ spec "processor_semantics" with
      | some (.obj o) => pure o
      | _ => throw "derivative_protocol_specification.processor_semantics must be a mapping"
    match lookupJ spec "guiding_principles" with
    | some (.obj _) => pure ()
    | _ => throw "derivative_protocol_specification.guiding_principles must be a mapping"
    checkTagDefs schemaFields sem core
    checkProtocolVersion spec
    checkPayloadOrderSpec spec core
    checkPipelineSpec spec sem

/-- `set(payload.keys()) - set(core_tag_library.keys())`, sorted (the list is
empty exactly when the Python set is). -/
def unknownTagsList (core payload : JObj) : List String :=
  sortStrings (dedupStr
    ((JObj.keys payload).filter (fun k => (lookupJ core k).isNone)))

/-- The `payload_order` block of `validate_payload`. -/
def checkPayloadOrder (spec payload : JObj) : Except String Unit :=
  match getNonNull spec "payload_order" with
  | none => .ok ()
  | some v =>
    match listToStrings v with
    | none => .error "payload_order must be an array of strings when provided"
    | some order =>
      let missing := sortStrings (dedupStr
        ((JObj.keys payload).filter (fun k => ¬ order.contains k)))
      if missing ≠ [] then
        .error ("payload_order missing payload tags: " ++ joinComma missing)
      else
        let extra := sortStrings (dedupStr
          (order.filter (fun k => (lookupJ payload k).isNone)))
        if extra ≠ [] then
          .error ("payload_order includes tags not in payload: " ++ joinComma extra)
        else if JObj.keys payload ≠ order then
          .error "payload tags do not match payload_order sequence"
        else .ok ()

/-- The processors used by the payload, first-use order, deduplicated
(`processors_used` and `processors_in_order` carry the same elements). -/
def procsInOrder (core payload : JObj) : List String :=
  (JObj.keys payload).foldl
    (fun acc tag =>
      match lookupJ core tag with
      | some (.obj t) =>
        match lookupJ t "processor" with
        | some (.str p) => if acc.contains p then acc else acc ++ [p]
        | _ => acc
      | _ => acc)
    []

/-- `spec.get("tag_definition_schema") or []`. -/
def schemaOrEmpty (spec : JObj) : JVal :=
  match lookupJ spec "tag_definition_schema" with
  | some v => if truthyJ v then v else .arr .nil
  | none => .arr .nil

/-- The `processor_pipeline` block of `validate_payload`. -/
def checkPipelinePayload (spec core payload : JObj) : Except String Unit :=
  match getNonNull spec "processor_pipeline" with
  | none => .ok ()
  | some v =>
    if containsStr (schemaOrEmpty spec) "processor" then
      match listToStrings v with
      | none => .error "processor_pipeline must be an array of strings when provided"
      | some pp =>
        let procs := procsInOrder core payload
        let missing := sortStrings (procs.filter (fun p => ¬ pp.contains p))
        if missing ≠ [] then
          .error ("processor_pipeline missing processors used by payload: " ++
            joinComma missing)
        else
          let extra := sortStrings (dedupStr
            (pp.filter (fun p => ¬ procs.contains p)))
          if extra ≠ [] then
            .error ("processor_pipeline includes processors not used by payload: " ++
              joinComma extra)
          else if (getNonNull spec "payload_order").isSome ∧ pp ≠ procs then
            .error "processor_pipeline order does not match payload order"
          else .ok ()
    else .ok ()

/-- Whether a tag definition counts as required
(`tag_map.get("required", True)` under Python truthiness). -/
def requiredTruthy (t : JObj) : Bool :=
  match lookupJ t "required" with
  | none => true
  | some v => truthyJ v

/-- The missing-required-tags loop of `validate_payload`
(raises if a tag definition is not a mapping, as `_require_mapping` does). -/
def missingRequired (payload : JObj) : JObj → Except String (List String)
  | .nil => .ok []
  | .cons tag v rest =>
    if (lookupJ payload tag).isSome then missingRequired payload rest
    else
      match v with
      | .obj t =>
        (missingRequired payload rest).map
          (fun l => if requiredTruthy t then tag :: l else l)
      | _ => .error ("core_tag_library[" ++ tag ++ "] must be a mapping")

/-- `validate_payload(spec, payload)`. -/
def validate_payload (spec payload : JObj) : Except String Unit := do
  let core ← requireCoreLib spec
  let unk := unknownTagsList core payload
  if unk ≠ [] then throw ("payload includes unknown tags: " ++ joinComma unk)
  checkPayloadOrder spec payload
  checkPipelinePayload spec core payload
  let missing ← missingRequired payload core
  if missing ≠ [] then
    throw ("payload missing required tags: " ++ joinComma (sortStrings missing))

def mkObj (l : List (String × JVal)) : JObj :=
  l.foldr (fun p acc => JObj.cons p.1 p.2 acc) .nil

def mkArr (l : List JVal) : JVal :=
  .arr (l.foldr JList.cons .nil)

/-- The minimal valid spec of spec §8 ("Scenario: bundle ... validates
without error"). -/
def minSpec : JObj := mkObj
  [("protocol_name", .str "P"),
   ("abstract", .str "A"),
   ("tag_definition_schema", mkArr [.str "description"]),
   ("core_tag_library", .obj (mkObj [("$task", .obj (mkObj [("description", .str "d")]))])),
   ("processor_semantics", .obj .nil),
   ("guiding_principles", .obj .nil)]

def minPayload : JObj := mkObj [("$task", .str "x")]

/-! ## Bundle normalization (`normalize_mpp_bundle`)

`normalize_mpp_bundle` is imported from `mpp_dspy.validations` by the
adapter, the optimizer and the unit tests, but its definition is absent from
the sources at hand; it is modelled from the spec below.  A bundle field is
either a structured value (`FieldV.inline v`) or a string holding the JSON
serialization of a value (`FieldV.pre v`), and a bundle carries the three
required top-level fields. -/

inductive FieldV where
  | inline (v : JVal) : FieldV
  | pre (v : JVal) : FieldV
  deriving Repr, DecidableEq

structure MBundle where
  meta : JVal
  spec : FieldV
  payload : FieldV
  deriving Repr, DecidableEq

/-- Modelled from the spec: `normalize(bundle)` "must tolerate spec/payload
fields being pre-serialized text (auto-decoding) before validation, so
upstream generators that emit valid JSON inside a string field are not
penalized purely for encoding choice" — a field holding the serialization of
`v` is decoded back to `v`.  (The implementation, `normalize_mpp_bundle` of
`mpp_dspy/validations.py`, is missing from the sources.) -/
def normalizeField : FieldV → FieldV
  | .pre v => .inline v
  | x => x

/-- Modelled from the spec: the normalize step applied to the
spec/payload fields of a bundle before validation. -/
def normalize_mpp_bundle (b : MBundle) : MBundle :=
  { b with spec := normalizeField b.spec, payload := normalizeField b.payload }

/-- `_require_mapping` on a bundle field (a pre-serialized field is a Python
`str`, hence not a mapping). -/
def requireMappingF (f : FieldV) (label : String) : Except String JObj :=
  match f with
  | .inline (.obj o) => .ok o
  | _ => .error (label ++ " must be a mapping")

/-- `validate_mpp_bundle(bundle)` (the three required keys always exist on
`MBundle`, so `_require_keys` is trivial here). -/
def validate_mpp_bundle (b : MBundle) : Except String Unit := do
  match b.meta with
  | .str _ => pure ()
  | _ => throw "bundle.meta_protocol_version must be a string"
  let spec ← requireMappingF b.spec "bundle.derivative_protocol_specification"
  let payload ← requireMappingF b.payload "bundle.derivative_protocol_payload"
  validate_derivative_spec spec
  validate_payload spec payload

/-! ## Executor loop (`MPPAdapterPipeline.execute`, `src/mpp_dspy/mpp_adapter.py`)

The executor and QA predictors are external collaborators; a run script
assigns each iteration's outcome.  An executor response text is either the
(possibly code-fenced) JSON serialization of a value or plain non-JSON text;
`_normalize_response_for_stability` strips fences, parses, drops
reasoning/rationale, and re-encodes canonically — embedded via
`canon`/`dumpsJ` on the parsed value. -/

inductive RespText where
  | jsonV (fenced : Bool) (v : JVal) : RespText
  | plain (s : Str) : RespText
  deriving Repr, DecidableEq

/-- `_drop_reasoning_fields(value)`. -/
def removeKeyJ (o : JObj) (k : String) : JObj :=
  match o with
  | .nil => .nil
  | .cons k' v rest => if k' = k then removeKeyJ rest k else .cons k' v (removeKeyJ rest k)

def dropReasoningJ : JVal → JVal
  | .obj kvs => .obj (removeKeyJ (removeKeyJ kvs "reasoning") "rationale")
  | v => v

/-- `" ".join(stripped.split())`. -/
def wsTokens : Str → List Str
  | [] => []
  | c :: rest =>
    if c.isWhitespace then wsTokens rest
    else
      match wsTokens rest with
      | [] => [[c]]
      | t :: ts => if rest.head?.any Char.isWhitespace then [c] :: t :: ts else (c :: t) :: ts

def collapseWs (s : Str) : Str :=
  match wsTokens s with
  | [] => []
  | t :: ts => ts.foldl (fun acc u => acc ++ [' '] ++ u) t

/-- `_normalize_response_for_stability(response)` (the comparison key is the
resulting Python string). -/
def normalizeResp : RespText → String
  | .jsonV _ v => dumpsJ (canon (dropReasoningJ v))
  | .plain s => String.mk (collapseWs s)

/-- One executor invocation: the prediction raised / lacked the
`final_response` field, or produced a response and an extracted reasoning
value (`_extract_reasoning`, `none` for missing-or-blank). -/
inductive ExecOutcome where
  | raised : ExecOutcome
  | pred (resp : RespText) (reasoning : Option String) : ExecOutcome
  deriving Repr, DecidableEq

/-- One QA invocation (`_run_qa`): raised / missing field, or a verdict and
issues. -/
inductive QAOutcome where
  | qraised : QAOutcome
  | qres (verdict : String) (issues : JVal) : QAOutcome
  deriving Repr, DecidableEq

/-- `_qa_passed(qa_result)` for a string verdict. -/
def qaPassedB (verdict : String) : Bool :=
  String.mk ((stripWs verdict.toList).map Char.toLower) = "pass"

/-- The feedback mapping built on a QA `fail`. -/
structure QAFeedback where
  verdict : String
  issues : JVal
  previousResponse : RespText
  deriving Repr, DecidableEq

/-- `VerticalStep` as appended by `execute`. -/
structure ExecStep where
  iteration : Nat
  output : RespText
  qaResult : Option (String × JVal)
  qaPassed : Option Bool
  deriving Repr, DecidableEq

/-- `ExecutionResult` (`final_response = none` embeds the empty string
`""`, i.e. `last_response or ""` with no last response). -/
structure ExecutionResult where
  finalResponse : Option RespText
  reasoning : Option String
  iterations : Nat
  stable : Bool
  qaResult : Option (String × JVal)
  qaPassed : Option Bool
  steps : List ExecStep
  deriving Repr, DecidableEq

/-- The loop-carried locals of `execute`, plus the log of every
`set_executor_feedback` call made so far. -/
structure ExecState where
  lastResponse : Option RespText
  lastComparable : Option String
  qaResult : Option (String × JVal)
  qaPassed : Option Bool
  reasoning : Option String
  qaFeedback : Option QAFeedback
  steps : List ExecStep
  calls : List (Option QAFeedback)

def initExecState : ExecState := ⟨none, none, none, none, none, none, [], []⟩

/-- The configuration of one `execute` call: run mode, whether a QA
predictor / feedback callback was supplied, whether
`validate_bundle(normalize_mpp_bundle(bundle))` succeeds (both are
caller-injected), and the predictor scripts. -/
structure ExecCfg where
  openWorld : Bool
  expectReasoning : Bool
  hasQA : Bool
  hasCallback : Bool
  bundleValid : Bool
  executor : Nat → ExecOutcome
  qa : Nat → QAOutcome

/-- The `for i in range(max_iters)` loop of `execute`; `fuel` counts the
remaining iterations (`fuel = maxIters - i`), and an error return carries the
calls made so far (the `finally` clause is applied by `execute` itself). -/
def execLoop (cfg : ExecCfg) (maxIters : Nat) :
    Nat → Nat → ExecState → Except String ExecutionResult × List (Option QAFeedback)
  | 0, _, st =>
    (Except.ok ⟨st.lastResponse, st.reasoning, maxIters, false, st.qaResult,
      st.qaPassed, st.steps⟩, st.calls)
  | fuel + 1, i, st =>
    let calls' := if cfg.openWorld ∧ cfg.hasCallback then st.calls ++ [st.qaFeedback]
      else st.calls
    match cfg.executor i with
    | .raised => (Except.error "Prediction missing field: final_response", calls')
    | .pred resp reasoning =>
      if cfg.expectReasoning ∧ reasoning = none then
        (Except.error
          "Executor is configured for ChainOfThought but no reasoning was returned.",
          calls')
      else
        let comparable := normalizeResp resp
        if cfg.openWorld ∧ cfg.hasQA then
          match cfg.qa i with
          | .qraised => (Except.error "Prediction missing field: verdict", calls')
          | .qres verdict issues =>
            let qaR := some (verdict, issues)
            if qaPassedB verdict then
              (Except.ok ⟨some resp, reasoning, i + 1, true, qaR, some true, st.steps⟩,
                calls')
            else
              let fb := some (⟨verdict, issues, resp⟩ : QAFeedback)
              let steps' := st.steps ++ [⟨i + 1, resp, qaR, some false⟩]
              if st.lastComparable = some comparable then
                (Except.ok ⟨some resp, reasoning, i + 1, true, qaR, some false, steps'⟩,
                  calls')
              else
                execLoop cfg maxIters fuel (i + 1)
                  ⟨some resp, some comparable, qaR, some false, reasoning, fb,
                    steps', calls'⟩
        else
          let steps' := st.steps ++ [⟨i + 1, resp, st.qaResult, st.qaPassed⟩]
          if st.lastComparable = some comparable then
            (Except.ok ⟨some resp, reasoning, i + 1, true, st.qaResult, st.qaPassed,
              steps'⟩, calls')
          else
            execLoop cfg maxIters fuel (i + 1)
              ⟨some resp, some comparable, st.qaResult, st.qaPassed, reasoning,
                st.qaFeedback, steps', calls'⟩

/-- `MPPAdapterPipeline.execute(bundle, max_iters, open_world,
expect_reasoning)`.  The second component is the full sequence of values
passed to `set_executor_feedback`; the trailing `none` is the `finally`
clause (skipped, like every call, when no callback was supplied, and never
reached by the two raises that precede the `try`). -/
def execute (cfg : ExecCfg) (maxIters : Nat) :
    Except String ExecutionResult × List (Option QAFeedback) :=
  if ¬ cfg.bundleValid then (Except.error "bundle invalid", [])
  else if cfg.openWorld ∧ ¬ cfg.hasQA then
    (Except.error "open_world execution requires a QA predictor.", [])
  else
    let (r, calls) := execLoop cfg maxIters maxIters 0 initExecState
    (r, calls ++ if cfg.hasCallback then [none] else [])

/-! ## Architect refinement loop (`MPPBundleOptimizer.refine`,
`src/mpp_dspy/mpp_optimizer.py`)

Bundles are abstract here (Python dicts compared by `==`); the architect, the
injected `validate_bundle` callable, and `normalize_mpp_bundle` are
parameters of the loop. -/

/-- One architect invocation: it raised, or produced a bundle. -/
inductive ArchOutcome (B : Type) where
  | araise (msg : String) : ArchOutcome B
  | aproduce (b : B) : ArchOutcome B

/-- `VerticalStep` as appended by `refine`. -/
structure BStep (B : Type) where
  iteration : Nat
  output : Option B
  error : Option String
  deriving DecidableEq

/-- `BundleResult`. -/
structure BundleResultE (B : Type) where
  bundle : B
  iterations : Nat
  stable : Bool
  steps : List (BStep B)
  deriving DecidableEq

section RefineLoop

variable {B : Type} [DecidableEq B]

/-- The `for i in range(max_iters)` loop of `MPPBundleOptimizer.refine`. -/
def refineLoop (validate : B → Except String Unit) (normalize : B → B)
    (arch : Nat → ArchOutcome B) (maxIters : Nat) :
    Nat → Nat → Option B → Option B → Option String → List (BStep B) →
      Except String (BundleResultE B)
  | 0, _, _, lastValid, lastError, steps =>
    match lastValid with
    | none =>
      Except.error ("Failed to produce a valid MPP bundle after " ++
        toString maxIters ++ " iterations. Last error: " ++
        lastError.getD "Unknown error.")
    | some b => Except.ok ⟨b, maxIters, false, steps⟩
  | fuel + 1, i, lastBundle, lastValid, _lastError, steps =>
    match arch i with
    | .araise m =>
      refineLoop validate normalize arch maxIters fuel (i + 1) lastBundle lastValid
        (some m) (steps ++ [⟨i + 1, none, some m⟩])
    | .aproduce b0 =>
      let b := normalize b0
      match validate b with
      | .error e =>
        refineLoop validate normalize arch maxIters fuel (i + 1) (some b) lastValid
          (some e) (steps ++ [⟨i + 1, some b, some e⟩])
      | .ok _ =>
        let steps' := steps ++ [⟨i + 1, some b, none⟩]
        if lastValid = some b then Except.ok ⟨b, i + 1, true, steps'⟩
        else
          refineLoop validate normalize arch maxIters fuel (i + 1) (some b) (some b)
            none steps'

/-- `MPPBundleOptimizer.refine(architect, user_goal, max_iters,
previous_bundle, error_message)`.  A previous bundle seeds `last_bundle`,
and seeds `last_valid_bundle` when it validates; `last_error` starts as the
supplied error message either way. -/
def seedValid (validate : B → Except String Unit) : Option B → Option B
  | none => none
  | some pb =>
    match validate pb with
    | .ok _ => some pb
    | .error _ => none

def refine (validate : B → Except String Unit) (normalize : B → B)
    (arch : Nat → ArchOutcome B) (maxIters : Nat)
    (previousBundle : Option B) (errorMessage : Option String) :
    Except String (BundleResultE B) :=
  refineLoop validate normalize arch maxIters maxIters 0 previousBundle
    (seedValid validate previousBundle) errorMessage []

/-- The last bundle to pass validation among the seed and the first `n`
architect iterations (specification-side fold mirroring the loop's
`last_valid_bundle`). -/
def lastValidFrom (validate : B → Except String Unit) (normalize : B → B)
    (arch : Nat → ArchOutcome B) : Option B → Nat → Nat → Option B
  | lv, _, 0 => lv
  | lv, i, n + 1 =>
    let lv' :=
      match arch i with
      | .araise _ => lv
      | .aproduce b0 =>
        let b := normalize b0
        match validate b with
        | .ok _ => some b
        | .error _ => lv
    lastValidFrom validate normalize arch lv' (i + 1) n

/-- `True` exactly on non-raising results whose `stable` flag is set. -/
def stableOkB {B : Type} : Except String (BundleResultE B) → Bool
  | .ok r => r.stable
  | .error _ => false

end RefineLoop

/-! ## Metrics (`TraceCostMetric`, `src/mpp_dspy/metrics.py`)

Scores are exact rationals (Python floats carry real-valued weights here;
the claims are about the order structure of the scoring function). -/

/-- The fields of `LongitudinalTrace` read by `TraceCostMetric.score`. -/
structure MTrace where
  bundleStable : Option Bool
  executorStable : Option Bool
  qaPassed : Option Bool
  bundleRefinements : Option Nat
  executorRefinements : Option Nat
  deriving Repr, DecidableEq

structure TraceCostMetric where
  finalWeight : ℚ
  architectWeight : ℚ
  executorWeight : ℚ

/-- `TraceCostMetric.__init__` (defaulting logic for the stage weights). -/
def mkTraceCostMetric (finalWeight : ℚ) (architectWeight executorWeight : Option ℚ)
    (weightMultiplier : ℚ) : TraceCostMetric :=
  ⟨finalWeight,
   architectWeight.getD (finalWeight / weightMultiplier),
   executorWeight.getD (finalWeight / (weightMultiplier * weightMultiplier))⟩

/-- `TraceCostMetric()` with all defaults. -/
def defaultMetric : TraceCostMetric := mkTraceCostMetric 4 none none 2

/-- The `stable` conjunction in `TraceCostMetric.score` (`is True` tests). -/
def traceSuccessful (t : MTrace) : Bool :=
  (t.bundleStable == some true) && (t.executorStable == some true) &&
    (t.qaPassed == some true)

/-- One trace's contribution to the pre-division total. -/
def caseScore (m : TraceCostMetric) (t : MTrace) : ℚ :=
  if traceSuccessful t then
    m.finalWeight /
      (m.finalWeight + (m.architectWeight * (t.bundleRefinements.getD 0 : ℕ) +
        m.executorWeight * (t.executorRefinements.getD 0 : ℕ)))
  else 0

/-- `TraceCostMetric.score(traces)`. -/
def metricScore (m : TraceCostMetric) (traces : List MTrace) : ℚ :=
  if traces = [] then 0
  else (traces.map (caseScore m)).sum / traces.length

/-! ## Longitudinal patience loop

`MPPLongitudinalRefiner` as present in `mpp_optimizer.py` here accepts no
patience parameters, yet its caller `MPPAutoAdapterOptimizer`
(`mpp_auto_adapter.py`) constructs it with `patience=...` and
`min_delta=...`; the patience-aware refine loop those calls reach is not in
the sources at hand, so it is modelled from the spec. -/

structure LongResult where
  bestScore : ℚ
  iterations : Nat

/-- Modelled from the spec (§4.6): for each iteration up to the cap, score
the mutated candidate; accept only when it "exceeds the best by more than a
minimum-delta threshold"; "track consecutive non-improving iterations; when
a patience limit is configured and exceeded, stop early".  `score i` is the
candidate score of mutation iteration `i ≥ 1`; iteration 0 scored the
unmodified template and seeded `best`. -/
def longAux (score : Nat → ℚ) (patience : Option Nat) (minDelta : ℚ) :
    Nat → Nat → ℚ → Nat → LongResult
  | 0, i, best, _ => ⟨best, i - 1⟩
  | fuel + 1, i, best, streak =>
    let s := score i
    if best + minDelta < s then longAux score patience minDelta fuel (i + 1) s 0
    else
      let streak' := streak + 1
      match patience with
      | some p =>
        if p < streak' then ⟨best, i⟩
        else longAux score patience minDelta fuel (i + 1) best streak'
      | none => longAux score patience minDelta fuel (i + 1) best streak'

/-- Modelled from the spec: the longitudinal refine loop, returning the best
score and the number of mutation iterations actually run. -/
def longRefine (score : Nat → ℚ) (initialScore : ℚ) (maxIters : Nat)
    (patience : Option Nat) (minDelta : ℚ) : LongResult :=
  longAux score patience minDelta maxIters 1 initialScore 0

/-! ## Statement-side definitions and fixtures -/

/-- A fully successful trace with the given refinement counts. -/
def succTrace (b e : Nat) : MTrace :=
  ⟨some true, some true, some true, some b, some e⟩

/-- Projections of an `execute` outcome (used to state results without
quantifying over the full record). -/
def execStable : Except String ExecutionResult → Option Bool
  | .ok r => some r.stable
  | .error _ => none

def execIterations : Except String ExecutionResult → Option Nat
  | .ok r => some r.iterations
  | .error _ => none

def execFinal : Except String ExecutionResult → Option (Option RespText)
  | .ok r => some r.finalResponse
  | .error _ => none

def execSteps : Except String ExecutionResult → Option (List ExecStep)
  | .ok r => some r.steps
  | .error _ => none

/-- Projections of a `refine` outcome. -/
def refBundle {B : Type} : Except String (BundleResultE B) → Option B
  | .ok r => some r.bundle
  | .error _ => none

def refIterations {B : Type} : Except String (BundleResultE B) → Option Nat
  | .ok r => some r.iterations
  | .error _ => none

def refStable {B : Type} : Except String (BundleResultE B) → Option Bool
  | .ok r => some r.stable
  | .error _ => none

def isObjB : JVal → Bool
  | .obj _ => true
  | _ => false

def objOfD : JVal → JObj
  | .obj t => t
  | _ => .nil

/-- The core tag library as the claim reads it off the spec. -/
def claimCore (spec : JObj) : JObj :=
  match lookupJ spec "core_tag_library" with
  | some (.obj o) => o
  | _ => .nil

/-- Claim condition: every tag in the payload exists in `core_tag_library`. -/
def claimUnknownB (spec payload : JObj) : Bool :=
  (JObj.keys payload).all fun k => (lookupJ (claimCore spec) k).isSome

/-- Claim condition: every library tag not marked `required=false` appears in
the payload. -/
def claimRequiredB (spec payload : JObj) : Bool :=
  (JObj.entries (claimCore spec)).all fun p =>
    if lookupJ (objOfD p.2) "required" = some (.bool false) then true
    else (lookupJ payload p.1).isSome

/-- Claim condition: when `payload_order` is present, the payload's key
iteration order equals it exactly. -/
def claimOrderB (spec payload : JObj) : Bool :=
  match getNonNull spec "payload_order" with
  | none => true
  | some w =>
    match listToStrings w with
    | some xs => JObj.keys payload == xs
    | none => false

/-- The validity conditions exactly as the claim states them. -/
def claimPayloadConditionsB (spec payload : JObj) : Bool :=
  claimUnknownB spec payload && claimRequiredB spec payload &&
    claimOrderB spec payload

/-- The text of the template between consecutive mutable regions (before the
first, between any two, after the last). -/
def outsidesFrom (s : Str) : Nat → List MutableBlock → List Str
  | pos, [] => [pySlice s pos s.length]
  | pos, b :: bs => pySlice s pos b.start :: outsidesFrom s b.stop bs

/-- Interleaving of outside text and per-region strings. -/
def joinAlt : List Str → List Str → Str
  | [], _ => []
  | o :: _, [] => o
  | o :: os, m :: ms => o ++ m ++ joinAlt os ms

/-- A parsed block covers the span from its start token through its end
token: the slice of the template it occupies is start token, raw name
segment (stripping to the block's name), name terminator, content, end
token. -/
def blockDecomp (s : Str) (b : MutableBlock) : Prop :=
  ∃ raw, b.name = stripWs raw ∧ b.stop ≤ s.length ∧
    pySlice s b.start b.stop =
      TOKEN_START ++ raw ++ TWO_BRACE ++ b.content ++ TOKEN_END

/-- Invariant of the block list produced by `_parse_blocks` from scan
position `pos`: blocks are ordered, in bounds, and each decomposes. -/
def BlocksInv (s : Str) : Nat → List MutableBlock → Prop
  | _, [] => True
  | pos, b :: bs =>
    pos ≤ b.start ∧ b.start ≤ b.stop ∧ blockDecomp s b ∧ BlocksInv s b.stop bs

/-- `"Hi {{MPP_MUTABLE:foo}}bar{{/MPP_MUTABLE}}."` (spec §8 shapes). -/
def hiTemplate : Str :=
  toStr "Hi \x7b\x7bMPP_MUTABLE:foo\x7d\x7dbar\x7b\x7b/MPP_MUTABLE\x7d\x7d."

/-- A well-formed template whose single region's content holds an unpaired
start token while the trailing outside text holds an unpaired end token. -/
def nestedTemplate : Str :=
  toStr ("\x7b\x7bMPP_MUTABLE:a\x7d\x7dx\x7b\x7bMPP_MUTABLE:y\x7d\x7dz" ++
    "\x7b\x7b/MPP_MUTABLE\x7d\x7dw\x7b\x7b/MPP_MUTABLE\x7d\x7dv")

/-- `render_mutable_template(nestedTemplate, {})`'s output. -/
def nestedOut : Str :=
  toStr "x\x7b\x7bMPP_MUTABLE:y\x7d\x7dzw\x7b\x7b/MPP_MUTABLE\x7d\x7dv"

/-- A valid spec that also declares a processor pipeline (in an order
opposite to the payload's processors). -/
def pipeSpec : JObj := mkObj
  [("protocol_name", .str "P"),
   ("abstract", .str "A"),
   ("tag_definition_schema", mkArr [.str "processor"]),
   ("core_tag_library", .obj (mkObj
     [("$a", .obj (mkObj [("processor", .str "p1")])),
      ("$b", .obj (mkObj [("processor", .str "p2")]))])),
   ("processor_semantics", .obj (mkObj [("p1", .str "s1"), ("p2", .str "s2")])),
   ("guiding_principles", .obj .nil),
   ("payload_order", mkArr [.str "$a", .str "$b"]),
   ("processor_pipeline", mkArr [.str "p2", .str "p1"])]

def pipePayload : JObj := mkObj [("$a", .str "x"), ("$b", .str "y")]

/-- `minPayload` with an unknown `"$unknown"` key added (spec §8 scenario). -/
def unkPayload : JObj :=
  mkObj [("$task", .str "x"), ("$unknown", .str "unexpected")]

/-- Executor responses that are JSON objects identical except for a
reasoning field. -/
def respWithReasoning : RespText :=
  .jsonV false (.obj (mkObj [("answer", .str "42"), ("reasoning", .str "because")]))

def respWithoutReasoning : RespText :=
  .jsonV true (.obj (mkObj [("answer", .str "42")]))

/-! # Theorems -/

/-! ## C1 — the round-trip law -/

/-- C1 (amended): `render(T, extract(T)) = T` holds for every template with
no mutable regions; `render` consumes the region markers, so any template
with a region is changed by the round-trip (see the counterexample). -/
theorem c1_round_trip_no_regions (t : Str) (h : parse_blocks t = Except.ok []) :
    roundTrip t = Except.ok t := by
  simp [roundTrip, extract_mutable_blocks, render_mutable_template, h,
    dictOfBlocks, bind, Except.bind, Except.map, List.isEmpty]

theorem c1_round_trip_no_regions_witness :
    parse_blocks (toStr "plain text") = Except.ok [] ∧
      roundTrip (toStr "plain text") = Except.ok (toStr "plain text") :=
  ⟨by decide, c1_round_trip_no_regions _ (by decide)⟩

/-- C1 counterexample: a template with one well-formed region does not
round-trip — `render` replaces the whole region (markers included) by its
content. -/
theorem c1_round_trip_counterexample :
    parse_blocks hiTemplate = Except.ok [⟨toStr "foo", toStr "bar", 3, 41⟩] ∧
      roundTrip hiTemplate = Except.ok (toStr "Hi bar.") ∧
      roundTrip hiTemplate ≠ Except.ok hiTemplate :=
  ⟨by decide, by decide, by decide⟩

/-! ## C2 — normalize auto-decodes pre-serialized fields -/

/-- C2: for a bundle whose spec/payload fields are strings holding the JSON
serialization of mappings (or already-decoded mappings), `normalize`
decodes them into the structured mappings, so a bundle that is valid in
decoded form passes validation after normalization.
`normalize_mpp_bundle` is modelled from the spec; its definition is missing
from the sources. -/
theorem c2_normalize_decodes (meta : JVal) (so po : JObj) (sf pf : FieldV)
    (hs : sf = .pre (.obj so) ∨ sf = .inline (.obj so))
    (hp : pf = .pre (.obj po) ∨ pf = .inline (.obj po)) :
    normalize_mpp_bundle ⟨meta, sf, pf⟩ =
      ⟨meta, .inline (.obj so), .inline (.obj po)⟩ ∧
    (validate_mpp_bundle ⟨meta, .inline (.obj so), .inline (.obj po)⟩ = .ok () →
      validate_mpp_bundle (normalize_mpp_bundle ⟨meta, sf, pf⟩) = .ok ()) := by
  have h1 : normalize_mpp_bundle ⟨meta, sf, pf⟩ =
      ⟨meta, .inline (.obj so), .inline (.obj po)⟩ := by
    rcases hs with h | h <;> rcases hp with h' | h' <;>
      simp [normalize_mpp_bundle, normalizeField, h, h']
  exact ⟨h1, fun hv => by rw [h1]; exact hv⟩

theorem c2_normalize_decodes_witness :
    normalize_mpp_bundle ⟨.str "1.0", .pre (.obj minSpec), .pre (.obj minPayload)⟩ =
      ⟨.str "1.0", .inline (.obj minSpec), .inline (.obj minPayload)⟩ ∧
    validate_mpp_bundle (normalize_mpp_bundle
      ⟨.str "1.0", .pre (.obj minSpec), .pre (.obj minPayload)⟩) = .ok () := by
  have h := c2_normalize_decodes (.str "1.0") minSpec minPayload _ _
    (Or.inl rfl) (Or.inl rfl)
  exact ⟨h.1, h.2 (by decide)⟩

/-! ## C7 — default metric shape -/

/-- C7: under the default `TraceCostMetric`, a trace with any success flag
not `True` contributes 0; among successful traces the contribution strictly
decreases in either refinement count; and a bundle-refinement increment
costs strictly more than an executor-refinement increment. -/
theorem c7_trace_cost_metric :
    (∀ t : MTrace,
      (t.bundleStable ≠ some true ∨ t.executorStable ≠ some true ∨
        t.qaPassed ≠ some true) →
      caseScore defaultMetric t = 0) ∧
    (∀ b b' e : ℕ, b < b' →
      caseScore defaultMetric (succTrace b' e) <
        caseScore defaultMetric (succTrace b e)) ∧
    (∀ b e e' : ℕ, e < e' →
      caseScore defaultMetric (succTrace b e') <
        caseScore defaultMetric (succTrace b e)) ∧
    (∀ b e : ℕ,
      caseScore defaultMetric (succTrace (b + 1) e) <
        caseScore defaultMetric (succTrace b (e + 1))) := by
  have hm : defaultMetric = ⟨4, 2, 1⟩ := by
    simp [defaultMetric, mkTraceCostMetric]; norm_num
  refine ⟨?_, ?_, ?_, ?_⟩
  · intro t h
    have hf : traceSuccessful t = false := by
      rcases h with h | h | h <;> simp [traceSuccessful, h]
    simp [caseScore, hf]
  · intro b b' e hb
    have hb' : (b : ℚ) < b' := by exact_mod_cast hb
    simp only [caseScore, succTrace, traceSuccessful, hm, Option.getD_some]
    norm_num
    rw [div_lt_div_iff₀ (by positivity) (by positivity)]
    nlinarith
  · intro b e e' he
    have he' : (e : ℚ) < e' := by exact_mod_cast he
    simp only [caseScore, succTrace, traceSuccessful, hm, Option.getD_some]
    norm_num
    rw [div_lt_div_iff₀ (by positivity) (by positivity)]
    nlinarith
  · intro b e
    simp only [caseScore, succTrace, traceSuccessful, hm, Option.getD_some]
    norm_num
    rw [div_lt_div_iff₀ (by positivity) (by positivity)]
    nlinarith

theorem c7_trace_cost_metric_witness :
    caseScore defaultMetric ⟨some false, some true, some true, some 0, some 0⟩ = 0 ∧
    caseScore defaultMetric (succTrace 1 0) < caseScore defaultMetric (succTrace 0 0) ∧
    caseScore defaultMetric (succTrace 0 1) < caseScore defaultMetric (succTrace 0 0) ∧
    caseScore defaultMetric (succTrace 1 0) < caseScore defaultMetric (succTrace 0 1) :=
  ⟨c7_trace_cost_metric.1 _ (Or.inl (by decide)),
   c7_trace_cost_metric.2.1 0 1 0 (by omega),
   c7_trace_cost_metric.2.2.1 0 0 1 (by omega),
   c7_trace_cost_metric.2.2.2 0 0⟩

/-! ## C8 — patience early stop (modelled from the spec) -/

theorem longAux_no_improve (score : Nat → ℚ) (p : Nat) (minDelta init : ℚ)
    (hs : ∀ j, score j ≤ init) (hd : 0 ≤ minDelta) :
    ∀ fuel i streak, streak ≤ p → p + 1 - streak ≤ fuel →
      longAux score (some p) minDelta fuel i init streak =
        ⟨init, i + (p - streak)⟩ := by
  intro fuel
  induction fuel with
  | zero => intro i streak h1 h2; omega
  | succ f ih =>
    intro i streak h1 h2
    have hni : ¬ (init + minDelta < score i) := by
      have := hs i; intro hlt; linarith
    by_cases hps : p < streak + 1
    · have hsp : streak = p := by omega
      subst hsp
      simp only [longAux, if_neg hni, if_pos hps]
      simp
    · simp only [longAux, if_neg hni, if_neg hps]
      rw [ih (i + 1) (streak + 1) (by omega) (by omega)]
      have : i + 1 + (p - (streak + 1)) = i + (p - streak) := by omega
      rw [this]

/-- C8: with a patience limit `p` configured and every candidate score
non-improving, the longitudinal refinement loop stops after `p + 1`
mutation iterations — fewer than the configured cap.  (The patience logic is
modelled from the spec; the `MPPLongitudinalRefiner` in the sources lacks
the patience parameters its caller passes.) -/
theorem c8_patience_early_stop (score : Nat → ℚ) (init minDelta : ℚ)
    (maxIters p : Nat) (hd : 0 ≤ minDelta) (hs : ∀ j, score j ≤ init)
    (hp : p + 1 < maxIters) :
    (longRefine score init maxIters (some p) minDelta).iterations = p + 1 ∧
    (longRefine score init maxIters (some p) minDelta).iterations < maxIters := by
  have h := longAux_no_improve score p minDelta init hs hd maxIters 1 0
    (by omega) (by omega)
  unfold longRefine
  rw [h]
  exact ⟨by simp; omega, by simp; omega⟩

theorem c8_patience_early_stop_witness :
    (longRefine (fun _ => 0) 0 5 (some 1) 0).iterations = 2 ∧
    (longRefine (fun _ => 0) 0 5 (some 1) 0).iterations < 5 := by
  have h := c8_patience_early_stop (fun _ => 0) 0 0 5 1 le_rfl
    (fun _ => le_rfl) (by omega)
  simpa using h

/-! ## C3 — architect-loop exhaustion -/

section C3

variable {B : Type} [DecidableEq B]
variable (validate : B → Except String Unit) (normalize : B → B)
variable (arch : Nat → ArchOutcome B)

theorem lastValidFrom_isSome :
    ∀ n i b, lastValidFrom validate normalize arch (some b) i n ≠ none := by
  intro n
  induction n with
  | zero => intro i b h; exact Option.noConfusion h
  | succ m ih =>
    intro i b h
    rw [lastValidFrom] at h
    revert h
    cases harch : arch i with
    | araise msg => simp only [harch]; exact ih (i + 1) b
    | aproduce b0 =>
      simp only [harch]
      cases hv : validate (normalize b0) with
      | ok u => exact ih (i + 1) (normalize b0)
      | error e => exact ih (i + 1) b

theorem lastValidFrom_none_of_no_valid :
    ∀ n i,
      (∀ j, i ≤ j → j < i + n → ∀ bb, arch j = .aproduce bb →
        validate (normalize bb) ≠ .ok ()) →
      lastValidFrom validate normalize arch none i n = none := by
  intro n
  induction n with
  | zero => intro i _; rfl
  | succ m ih =>
    intro i h
    rw [lastValidFrom]
    cases harch : arch i with
    | araise msg =>
      simp only
      exact ih (i + 1) (fun j h1 h2 bb hb => h j (by omega) (by omega) bb hb)
    | aproduce b0 =>
      simp only
      cases hv : validate (normalize b0) with
      | ok u => exact absurd hv (h i (by omega) (by omega) b0 harch)
      | error e =>
        exact ih (i + 1) (fun j h1 h2 bb hb => h j (by omega) (by omega) bb hb)

theorem refineLoop_error_of_none (maxIters : Nat) :
    ∀ fuel i lastB lastV lastE steps,
      lastValidFrom validate normalize arch lastV i fuel = none →
      ∃ m, refineLoop validate normalize arch maxIters fuel i lastB lastV lastE
        steps = .error m := by
  intro fuel
  induction fuel with
  | zero =>
    intro i lastB lastV lastE steps h
    rw [lastValidFrom] at h
    subst h
    exact ⟨_, rfl⟩
  | succ f ih =>
    intro i lastB lastV lastE steps h
    rw [lastValidFrom] at h
    rw [refineLoop]
    cases harch : arch i with
    | araise msg =>
      simp only [harch] at h ⊢
      exact ih _ _ _ _ _ h
    | aproduce b0 =>
      simp only [harch] at h ⊢
      cases hv : validate (normalize b0) with
      | ok u =>
        simp only [hv] at h
        exact absurd h (lastValidFrom_isSome validate normalize arch f (i + 1) _)
      | error e =>
        simp only [hv] at h ⊢
        exact ih _ _ _ _ _ h

theorem refineLoop_ok_of_some (maxIters : Nat) :
    ∀ fuel i lastB lastV lastE steps b,
      lastValidFrom validate normalize arch lastV i fuel = some b →
      stableOkB (refineLoop validate normalize arch maxIters fuel i lastB lastV
        lastE steps) = false →
      ∃ steps', refineLoop validate normalize arch maxIters fuel i lastB lastV
        lastE steps = .ok ⟨b, maxIters, false, steps'⟩ := by
  intro fuel
  induction fuel with
  | zero =>
    intro i lastB lastV lastE steps b h _
    rw [lastValidFrom] at h
    subst h
    exact ⟨steps, rfl⟩
  | succ f ih =>
    intro i lastB lastV lastE steps b h hns
    rw [lastValidFrom] at h
    rw [refineLoop] at hns ⊢
    cases harch : arch i with
    | araise msg =>
      simp only [harch] at h hns ⊢
      exact ih _ _ _ _ _ _ h hns
    | aproduce b0 =>
      simp only [harch] at h hns ⊢
      cases hv : validate (normalize b0) with
      | error e =>
        simp only [hv] at h hns ⊢
        exact ih _ _ _ _ _ _ h hns
      | ok u =>
        simp only [hv] at h hns ⊢
        by_cases hst : lastV = some (normalize b0)
        · rw [if_pos hst] at hns
          simp [stableOkB] at hns
        · rw [if_neg hst] at hns ⊢
          exact ih _ _ _ _ _ _ h hns

/-- C3: if the architect refinement loop exhausts its cap with no bundle
(seed included) ever passing validation, `refine` raises; if a bundle did
pass and the loop did not end in a stable state, `refine` returns the last
valid bundle with `stable = false` and `iterations = max_iters`. -/
theorem c3_architect_exhaustion (maxIters : Nat) (prev : Option B)
    (errMsg : Option String) :
    ((seedValid validate prev = none ∧
        ∀ j, j < maxIters → ∀ bb, arch j = .aproduce bb →
          validate (normalize bb) ≠ .ok ()) →
      (refine validate normalize arch maxIters prev errMsg).isOk = false) ∧
    (∀ b,
      lastValidFrom validate normalize arch (seedValid validate prev) 0
        maxIters = some b →
      stableOkB (refine validate normalize arch maxIters prev errMsg) = false →
      refBundle (refine validate normalize arch maxIters prev errMsg) = some b ∧
      refIterations (refine validate normalize arch maxIters prev errMsg) =
        some maxIters ∧
      refStable (refine validate normalize arch maxIters prev errMsg) =
        some false) := by
  constructor
  · rintro ⟨hseed, hiter⟩
    have hfold : lastValidFrom validate normalize arch (seedValid validate prev) 0
        maxIters = none := by
      rw [hseed]
      exact lastValidFrom_none_of_no_valid validate normalize arch maxIters 0
        (fun j _ hj bb hb => hiter j (by omega) bb hb)
    obtain ⟨m, hm⟩ := refineLoop_error_of_none validate normalize arch maxIters
      maxIters 0 prev (seedValid validate prev) errMsg [] hfold
    rw [refine, hm]
    rfl
  · intro b hfold hns
    obtain ⟨steps', hok⟩ := refineLoop_ok_of_some validate normalize arch maxIters
      maxIters 0 prev (seedValid validate prev) errMsg [] b hfold hns
    rw [refine] at hns ⊢
    rw [hok]
    exact ⟨rfl, rfl, rfl⟩

end C3

theorem c3_architect_exhaustion_witness :
    (refine (fun b : Nat => if b = 1 then Except.ok () else Except.error "bad")
      id (fun _ => ArchOutcome.aproduce 0) 2 none none).isOk = false ∧
    (refBundle (refine (fun _ : Nat => Except.ok ()) id
        (fun i => ArchOutcome.aproduce i) 2 none none) = some 1 ∧
      refIterations (refine (fun _ : Nat => Except.ok ()) id
        (fun i => ArchOutcome.aproduce i) 2 none none) = some 2 ∧
      refStable (refine (fun _ : Nat => Except.ok ()) id
        (fun i => ArchOutcome.aproduce i) 2 none none) = some false) := by
  constructor
  · exact (c3_architect_exhaustion
      (fun b : Nat => if b = 1 then Except.ok () else Except.error "bad") id
      (fun _ => ArchOutcome.aproduce 0) 2 none none).1
      ⟨rfl, by
        intro j _ bb hb
        cases hb
        decide⟩
  · exact (c3_architect_exhaustion (fun _ : Nat => Except.ok ()) id
      (fun i => ArchOutcome.aproduce i) 2 none none).2 1 (by decide) (by decide)

/-! ## C4 — the QA-feedback slot is always cleared -/

/-- C4: whenever a feedback callback is supplied, on every exit path of
`execute` the sequence of values passed to it is either empty (the two
raises that precede the loop) or ends with `None` — the slot is never left
holding a feedback mapping. -/
theorem c4_feedback_cleared (cfg : ExecCfg) (maxIters : Nat)
    (h : cfg.hasCallback = true) :
    (execute cfg maxIters).2 = [] ∨
      (execute cfg maxIters).2.getLast? = some none := by
  rw [execute]
  split
  · left; rfl
  · split
    · left; rfl
    · right
      cases hE : execLoop cfg maxIters maxIters 0 initExecState with
      | mk r calls =>
        simp only [hE, h, if_true]
        exact List.getLast?_concat _

theorem c4_feedback_cleared_witness :
    (execute ⟨true, false, true, true, true, fun _ => ExecOutcome.raised,
      fun _ => QAOutcome.qraised⟩ 3).2 = [] ∨
    (execute ⟨true, false, true, true, true, fun _ => ExecOutcome.raised,
      fun _ => QAOutcome.qraised⟩ 3).2.getLast? = some none :=
  c4_feedback_cleared _ 3 rfl

/-! ## C10 — an open-world QA pass is not recorded as a step -/

theorem execLoop_openworld_steps (cfg : ExecCfg) (how : cfg.openWorld = true)
    (hqa : cfg.hasQA = true) (maxIters : Nat) :
    ∀ fuel i st, (∀ s ∈ st.steps, s.qaPassed = some false) →
      ∀ r calls, execLoop cfg maxIters fuel i st = (.ok r, calls) →
      ∀ s ∈ r.steps, s.qaPassed = some false := by
  intro fuel
  induction fuel with
  | zero =>
    intro i st hst r calls h
    rw [execLoop] at h
    rw [Prod.mk.injEq] at h
    obtain ⟨h1, _⟩ := h
    injection h1 with h1
    rw [← h1]
    exact hst
  | succ f ih =>
    intro i st hst r calls h
    rw [execLoop] at h
    split at h
    · exact absurd h (by simp)
    · rename_i resp reasoning heq
      split at h
      · exact absurd h (by simp)
      · split at h
        · split at h
          · exact absurd h (by simp)
          · rename_i verdict issues hqares
            split at h
            · rw [Prod.mk.injEq] at h
              obtain ⟨h1, _⟩ := h
              injection h1 with h1
              rw [← h1]
              exact hst
            · dsimp only at h
              split at h
              · rw [Prod.mk.injEq] at h
                obtain ⟨h1, _⟩ := h
                injection h1 with h1
                rw [← h1]
                intro s hs
                rcases List.mem_append.mp hs with hmem | hmem
                · exact hst s hmem
                · rw [List.mem_singleton.mp hmem]
              · refine ih (i + 1) _ ?_ r calls h
                intro s hs
                rcases List.mem_append.mp hs with hmem | hmem
                · exact hst s hmem
                · rw [List.mem_singleton.mp hmem]
        · rename_i hcond
          exact absurd ⟨how, hqa⟩ hcond

/-- C10: in open-world execution every recorded step belongs to an
iteration whose QA verdict was not `pass` (the passing iteration breaks the
loop before its step is appended); in particular a run passing QA on the
first iteration returns an empty steps list with `iterations = 1`. -/
theorem c10_open_world_pass_omits_audit :
    (∀ (cfg : ExecCfg) (maxIters : Nat) (r : ExecutionResult)
        (calls : List (Option QAFeedback)),
      cfg.openWorld = true → cfg.hasQA = true →
      execute cfg maxIters = (.ok r, calls) →
      ∀ s ∈ r.steps, s.qaPassed = some false) ∧
    (∀ (cfg : ExecCfg) (m : Nat) (resp : RespText) (rsn : Option String)
        (verdict : String) (issues : JVal),
      cfg.openWorld = true → cfg.hasQA = true → cfg.bundleValid = true →
      cfg.executor 0 = .pred resp rsn →
      (cfg.expectReasoning = true → rsn ≠ none) →
      cfg.qa 0 = .qres verdict issues → qaPassedB verdict = true →
      execSteps (execute cfg (m + 1)).1 = some [] ∧
      execIterations (execute cfg (m + 1)).1 = some 1 ∧
      execStable (execute cfg (m + 1)).1 = some true) := by
  constructor
  · intro cfg maxIters r calls how hqa h
    rw [execute] at h
    split at h
    · exact absurd h (by simp)
    · split at h
      · exact absurd h (by simp)
      · cases hE : execLoop cfg maxIters maxIters 0 initExecState with
        | mk r0 c0 =>
          rw [hE] at h
          dsimp only at h
          rw [Prod.mk.injEq] at h
          obtain ⟨h1, _⟩ := h
          rw [h1] at hE
          exact execLoop_openworld_steps cfg how hqa maxIters maxIters 0
            initExecState (by intro s hs; exact absurd hs (List.not_mem_nil s))
            r c0 hE
  · intro cfg m resp rsn verdict issues how hqa hbv hex hrs hqa0 hpass
    have hncond : ¬(cfg.expectReasoning = true ∧ rsn = none) :=
      fun hc => hrs hc.1 hc.2
    have hL : (execLoop cfg (m + 1) (m + 1) 0 initExecState).1 =
        .ok ⟨some resp, rsn, 1, true, some (verdict, issues), some true, []⟩ := by
      rw [execLoop, hex]
      dsimp only
      rw [if_neg hncond, if_pos ⟨how, hqa⟩, hqa0]
      dsimp only
      rw [if_pos hpass]
      rfl
    rw [execute, if_neg (by simp [hbv]), if_neg (by simp [hqa])]
    cases hE : execLoop cfg (m + 1) (m + 1) 0 initExecState with
    | mk r0 c0 =>
      rw [hE] at hL
      dsimp only at hL ⊢
      rw [hL]
      exact ⟨rfl, rfl, rfl⟩

theorem execLoop_closed_stable (cfg : ExecCfg) (maxIters I : Nat)
    (resp : Nat → RespText) (rsn : Nat → Option String)
    (hcw : cfg.openWorld = false)
    (hex : ∀ j, j ≤ I + 1 → cfg.executor j = .pred (resp j) (rsn j))
    (hrs : ∀ j, j ≤ I + 1 → cfg.expectReasoning = true → rsn j ≠ none)
    (hne : ∀ j, j < I → normalizeResp (resp (j + 1)) ≠ normalizeResp (resp j))
    (heq : normalizeResp (resp (I + 1)) = normalizeResp (resp I))
    (hI : I + 1 < maxIters) :
    ∀ fuel idx st, idx + fuel = maxIters → idx ≤ I + 1 →
      st.lastComparable = (match idx with
        | 0 => none
        | k + 1 => some (normalizeResp (resp k))) →
      ∃ r calls, execLoop cfg maxIters fuel idx st = (.ok r, calls) ∧
        r.stable = true ∧ r.iterations = I + 2 ∧
        r.finalResponse = some (resp (I + 1)) := by
  intro fuel
  induction fuel with
  | zero => intro idx st hsum hidx _; omega
  | succ f ih =>
    intro idx st hsum hidx hlc
    rw [execLoop, hex idx hidx]
    dsimp only
    rw [if_neg (fun hc => hrs idx hidx hc.1 hc.2)]
    rw [if_neg (by rw [hcw]; rintro ⟨h1, _⟩; exact Bool.false_ne_true h1)]
    by_cases hlast : idx = I + 1
    · subst hlast
      rw [if_pos (by rw [hlc]; rw [heq])]
      exact ⟨_, _, rfl, rfl, rfl, rfl⟩
    · have hidx' : idx ≤ I := by omega
      rw [if_neg ?_]
      · exact ih (idx + 1) _ (by omega) (by omega) rfl
      · cases idx with
        | zero => rw [hlc]; exact Option.noConfusion
        | succ k =>
          rw [hlc]
          intro hcontra
          injection hcontra with hcontra
          exact hne k (by omega) hcontra.symm

/-- C6: in closed-world mode, two consecutive responses that parse as JSON
objects identical except for the value or presence of a top-level
`reasoning`/`rationale` field normalize identically, so the loop declares
stability on the second response. -/
theorem c6_closed_world_reasoning_churn (cfg : ExecCfg) (maxIters I : Nat)
    (resp : Nat → RespText) (rsn : Nat → Option String)
    (f1 f2 : Bool) (v1 v2 : JVal)
    (hcw : cfg.openWorld = false) (hbv : cfg.bundleValid = true)
    (hex : ∀ j, j ≤ I + 1 → cfg.executor j = .pred (resp j) (rsn j))
    (hrs : ∀ j, j ≤ I + 1 → cfg.expectReasoning = true → rsn j ≠ none)
    (hne : ∀ j, j < I → normalizeResp (resp (j + 1)) ≠ normalizeResp (resp j))
    (hj1 : resp I = .jsonV f1 v1) (hj2 : resp (I + 1) = .jsonV f2 v2)
    (hobj : isObjB v1 = true ∧ isObjB v2 = true)
    (hcanon : canon (dropReasoningJ v1) = canon (dropReasoningJ v2))
    (hI : I + 1 < maxIters) :
    execStable (execute cfg maxIters).1 = some true ∧
    execIterations (execute cfg maxIters).1 = some (I + 2) ∧
    execFinal (execute cfg maxIters).1 = some (some (resp (I + 1))) := by
  have heq : normalizeResp (resp (I + 1)) = normalizeResp (resp I) := by
    rw [hj1, hj2]
    simp only [normalizeResp]
    rw [hcanon]
  obtain ⟨r, calls, hE, hst, hit, hfin⟩ := execLoop_closed_stable cfg maxIters I
    resp rsn hcw hex hrs hne heq hI maxIters 0 initExecState (by omega) (by omega)
    rfl
  rw [execute, if_neg (by simp [hbv]),
    if_neg (by rw [hcw]; rintro ⟨h1, _⟩; exact Bool.false_ne_true h1)]
  rw [hE]
  dsimp only
  simp [execStable, execIterations, execFinal, hst, hit, hfin]

theorem c6_closed_world_reasoning_churn_witness :
    execStable (execute ⟨false, false, false, false, true,
      fun j => ExecOutcome.pred
        (if j = 0 then respWithReasoning else respWithoutReasoning) none,
      fun _ => QAOutcome.qraised⟩ 2).1 = some true ∧
    execIterations (execute ⟨false, false, false, false, true,
      fun j => ExecOutcome.pred
        (if j = 0 then respWithReasoning else respWithoutReasoning) none,
      fun _ => QAOutcome.qraised⟩ 2).1 = some 2 ∧
    execFinal (execute ⟨false, false, false, false, true,
      fun j => ExecOutcome.pred
        (if j = 0 then respWithReasoning else respWithoutReasoning) none,
      fun _ => QAOutcome.qraised⟩ 2).1 = some (some respWithoutReasoning) := by
  have h := c6_closed_world_reasoning_churn ⟨false, false, false, false, true,
      fun j => ExecOutcome.pred
        (if j = 0 then respWithReasoning else respWithoutReasoning) none,
      fun _ => QAOutcome.qraised⟩ 2 0
    (fun j => if j = 0 then respWithReasoning else respWithoutReasoning)
    (fun _ => none) false true
    (.obj (mkObj [("answer", .str "42"), ("reasoning", .str "because")]))
    (.obj (mkObj [("answer", .str "42")]))
    rfl rfl (fun j _ => rfl) (fun j _ hc => absurd hc (by decide))
    (fun j hj => absurd hj (by omega)) rfl rfl (by decide) (by decide) (by omega)
  simpa using h

theorem c10_open_world_pass_omits_audit_witness :
    execSteps (execute ⟨true, false, true, false, true,
      fun _ => ExecOutcome.pred (RespText.plain []) none,
      fun _ => QAOutcome.qres "pass" .null⟩ 1).1 = some [] ∧
    execIterations (execute ⟨true, false, true, false, true,
      fun _ => ExecOutcome.pred (RespText.plain []) none,
      fun _ => QAOutcome.qres "pass" .null⟩ 1).1 = some 1 ∧
    execStable (execute ⟨true, false, true, false, true,
      fun _ => ExecOutcome.pred (RespText.plain []) none,
      fun _ => QAOutcome.qres "pass" .null⟩ 1).1 = some true :=
  c10_open_world_pass_omits_audit.2 _ 0 (RespText.plain []) none "pass" .null
    rfl rfl rfl rfl (fun hc => absurd hc (by decide)) rfl (by decide)

/-! ## C9 — rendering consumes the region markers -/

theorem find1_some (pat : Str) :
    ∀ s i, find1 s pat = some i → pat.isPrefixOf (s.drop i) = true := by
  intro s
  induction s with
  | nil =>
    intro i h
    rw [find1] at h
    split at h
    · injection h with h; rw [← h]; assumption
    · exact absurd h (by simp)
  | cons c t ih =>
    intro i h
    rw [find1] at h
    split at h
    · injection h with h; rw [← h]; assumption
    · rw [Option.map_eq_some'] at h
      obtain ⟨i', hi', hii⟩ := h
      rw [← hii]
      exact ih i' hi'

theorem findFrom_some (s pat : Str) (pos j : Nat)
    (h : findFrom s pat pos = some j) :
    pos ≤ j ∧ pat.isPrefixOf (s.drop j) = true := by
  rw [findFrom, Option.map_eq_some'] at h
  obtain ⟨i, hi, hij⟩ := h
  have hpre := find1_some pat (s.drop pos) i hi
  rw [List.drop_drop] at hpre
  rw [← hij]
  refine ⟨by omega, ?_⟩
  rwa [Nat.add_comm pos i] at hpre

theorem prefix_extract (s pat : Str) (a : Nat) (hlen : 0 < pat.length)
    (h : pat.isPrefixOf (s.drop a) = true) :
    pySlice s a (a + pat.length) = pat ∧ a + pat.length ≤ s.length := by
  rw [List.isPrefixOf_iff_prefix] at h
  obtain ⟨t, ht⟩ := h
  constructor
  · rw [pySlice, Nat.add_sub_cancel_left, ← ht, List.take_left]
  · have hd : (s.drop a).length = s.length - a := List.length_drop a s
    rw [← ht, List.length_append] at hd
    omega

theorem pySlice_append (s : Str) (a b c : Nat) (hab : a ≤ b) (hbc : b ≤ c) :
    pySlice s a b ++ pySlice s b c = pySlice s a c := by
  have hd : s.drop b = (s.drop a).drop (b - a) := by
    rw [List.drop_drop]
    congr 1
    omega
  rw [pySlice, pySlice, pySlice, hd]
  rw [← List.take_add]
  congr 1
  omega

theorem pySlice_full (s : Str) : pySlice s 0 s.length = s := by
  simp [pySlice]

theorem parseAux_inv (s : Str) :
    ∀ fuel pos bs, parseBlocksAux s fuel pos = .ok bs → BlocksInv s pos bs := by
  intro fuel
  induction fuel with
  | zero => intro pos bs h; exact absurd h (by simp [parseBlocksAux])
  | succ f ih =>
    intro pos bs h
    rw [parseBlocksAux] at h
    split at h
    · injection h with h
      rw [← h]
      trivial
    · rename_i start hfs
      dsimp only at h
      split at h
      · exact absurd h (by simp)
      · rename_i nameEnd hfn
        split at h
        · exact absurd h (by simp)
        · split at h
          · exact absurd h (by simp)
          · rename_i endPos hfe
            split at h
            · exact absurd h (by simp)
            · rename_i rest hrec
              injection h with h
              rw [← h]
              obtain ⟨hps, hpre1⟩ := findFrom_some s TOKEN_START pos start hfs
              obtain ⟨hps2, hpre2⟩ := findFrom_some s TWO_BRACE _ nameEnd hfn
              obtain ⟨hps3, hpre3⟩ := findFrom_some s TOKEN_END _ endPos hfe
              obtain ⟨he1, hb1⟩ := prefix_extract s TOKEN_START start
                (by decide) hpre1
              obtain ⟨he2, hb2⟩ := prefix_extract s TWO_BRACE nameEnd
                (by decide) hpre2
              obtain ⟨he3, hb3⟩ := prefix_extract s TOKEN_END endPos
                (by decide) hpre3
              have hL1 : TOKEN_START.length = 14 := by decide
              have hL2 : TWO_BRACE.length = 2 := by decide
              have hL3 : TOKEN_END.length = 16 := by decide
              rw [hL1] at he1 hb1
              rw [hL2] at he2 hb2
              rw [hL3] at he3 hb3
              refine ⟨hps, by dsimp only; omega,
                ⟨pySlice s (start + TOKEN_START.length) nameEnd,
                rfl, by dsimp only; rw [hL3]; omega, ?_⟩, ih _ _ hrec⟩
              dsimp only
              rw [hL1, hL3]
              have step1 : pySlice s start (start + 14) ++
                  pySlice s (start + 14) nameEnd = pySlice s start nameEnd :=
                pySlice_append s start (start + 14) nameEnd (by omega)
                  (by rw [hL1] at hps2; omega)
              have step2 : pySlice s nameEnd (nameEnd + 2) ++
                  pySlice s (nameEnd + 2) endPos = pySlice s nameEnd endPos :=
                pySlice_append s nameEnd (nameEnd + 2) endPos (by omega) (by omega)
              have step3 : pySlice s start nameEnd ++ pySlice s nameEnd endPos =
                  pySlice s start endPos :=
                pySlice_append s start nameEnd endPos (by rw [hL1] at hps2; omega)
                  (by omega)
              have step4 : pySlice s start endPos ++
                  pySlice s endPos (endPos + 16) = pySlice s start (endPos + 16) :=
                pySlice_append s start endPos (endPos + 16)
                  (by rw [hL1] at hps2; omega) (by omega)
              calc pySlice s start (endPos + 16)
                  = pySlice s start endPos ++ pySlice s endPos (endPos + 16) :=
                    step4.symm
                _ = (pySlice s start nameEnd ++ pySlice s nameEnd endPos) ++
                      TOKEN_END := by rw [step3, he3]
                _ = TOKEN_START ++ pySlice s (start + TOKEN_START.length) nameEnd ++
                      TWO_BRACE ++ pySlice s (nameEnd + 2) endPos ++ TOKEN_END := by
                    rw [← step1, ← step2, he1, he2, hL1]
                    simp [List.append_assoc]

theorem blocksInv_mem (s : Str) :
    ∀ bs pos, BlocksInv s pos bs → ∀ b ∈ bs, blockDecomp s b := by
  intro bs
  induction bs with
  | nil => intro pos _ b hb; exact absurd hb (List.not_mem_nil b)
  | cons x xs ih =>
    intro pos hinv b hb
    obtain ⟨_, _, hdec, hrest⟩ := hinv
    rcases List.mem_cons.mp hb with hbx | hbxs
    · rw [hbx]; exact hdec
    · exact ih x.stop hrest b hbxs

theorem renderChunks_eq_joinAlt (s : Str) (repl : List (Str × Str)) :
    ∀ bs pos, renderChunks s repl bs pos =
      joinAlt (outsidesFrom s pos bs) (bs.map (chosenContent repl)) := by
  intro bs
  induction bs with
  | nil => intro pos; rfl
  | cons x xs ih =>
    intro pos
    rw [renderChunks, outsidesFrom, List.map_cons, joinAlt, ih]

theorem slice_decomp_join (s : Str) :
    ∀ bs pos, BlocksInv s pos bs →
      pySlice s pos s.length =
        joinAlt (outsidesFrom s pos bs)
          (bs.map (fun b => pySlice s b.start b.stop)) := by
  intro bs
  induction bs with
  | nil => intro pos _; rfl
  | cons x xs ih =>
    intro pos hinv
    obtain ⟨h1, h2, hdec, hrest⟩ := hinv
    obtain ⟨raw, _, hstop, _⟩ := hdec
    rw [outsidesFrom, List.map_cons, joinAlt, ← ih x.stop hrest]
    rw [show pySlice s pos x.start ++ pySlice s x.start x.stop ++
        pySlice s x.stop s.length =
        pySlice s pos x.start ++ (pySlice s x.start x.stop ++
          pySlice s x.stop s.length) from by simp [List.append_assoc]]
    rw [pySlice_append s x.start x.stop s.length h2 hstop]
    rw [pySlice_append s pos x.start s.length h1 (by omega)]

/-- C9 (amended): for a well-formed template, `render` replaces each mutable
region — the whole span from its start token through its end token — by the
replacement content for its name (the region's own content when the name is
absent), preserving the text outside the regions verbatim; the template's
own markers are consumed (but replacement or content text may itself
contain marker tokens, so the output can still contain mutable regions —
see the counterexample). -/
theorem c9_render_consumes_markers (t : Str) (repl : List (Str × Str))
    (bs : List MutableBlock) (h : parse_blocks t = Except.ok bs) :
    render_mutable_template t repl =
      Except.ok (joinAlt (outsidesFrom t 0 bs) (bs.map (chosenContent repl))) ∧
    t = joinAlt (outsidesFrom t 0 bs)
      (bs.map (fun b => pySlice t b.start b.stop)) ∧
    ∀ b ∈ bs, blockDecomp t b := by
  have hinv : BlocksInv t 0 bs := parseAux_inv t (t.length + 1) 0 bs h
  have hdecomp : t = joinAlt (outsidesFrom t 0 bs)
      (bs.map (fun b => pySlice t b.start b.stop)) := by
    have hd := slice_decomp_join t bs 0 hinv
    rwa [pySlice_full] at hd
  refine ⟨?_, hdecomp, blocksInv_mem t bs 0 hinv⟩
  rw [render_mutable_template, h]
  dsimp only
  cases bs with
  | nil =>
    simp only [List.isEmpty_nil, if_true]
    rw [show joinAlt (outsidesFrom t 0 []) ([].map (chosenContent repl)) =
      pySlice t 0 t.length from rfl, pySlice_full]
  | cons x xs =>
    rw [if_neg (by simp)]
    rw [renderChunks_eq_joinAlt]

theorem c9_render_consumes_markers_witness :
    render_mutable_template hiTemplate [(toStr "foo", toStr "NEW")] =
      Except.ok (joinAlt
        (outsidesFrom hiTemplate 0 [⟨toStr "foo", toStr "bar", 3, 41⟩])
        ([⟨toStr "foo", toStr "bar", 3, 41⟩].map
          (chosenContent [(toStr "foo", toStr "NEW")]))) :=
  (c9_render_consumes_markers hiTemplate [(toStr "foo", toStr "NEW")]
    [⟨toStr "foo", toStr "bar", 3, 41⟩] (by decide)).1

/-- C9 counterexample: a well-formed template whose rendering (with an empty
replacements mapping) still contains a complete mutable region — the
region's content carries a stray start token and the trailing outside text a
stray end token, which join in the output. -/
theorem c9_render_counterexample :
    parse_blocks nestedTemplate =
      Except.ok [⟨toStr "a", toStr "x\x7b\x7bMPP_MUTABLE:y\x7d\x7dz", 0, 52⟩] ∧
    render_mutable_template nestedTemplate [] = Except.ok nestedOut ∧
    parse_blocks nestedOut = Except.ok [⟨toStr "y", toStr "zw", 1, 36⟩] ∧
    Except.ok [⟨toStr "y", toStr "zw", 1, 36⟩] ≠
      (Except.ok [] : Except String (List MutableBlock)) :=
  ⟨by decide, by decide, by decide, by decide⟩

/-! ## C5 — payload validity characterization -/

theorem bindE_ok {α β : Type} (a : α) (f : α → Except String β) :
    (Except.ok a >>= f : Except String β) = f a := rfl

theorem bindE_err {α β : Type} (e : String) (f : α → Except String β) :
    (Except.error e >>= f : Except String β) = Except.error e := rfl

theorem insertStr_ne_nil (x : String) : ∀ l, insertStr x l ≠ [] := by
  intro l
  cases l with
  | nil => simp [insertStr]
  | cons y ys =>
    rw [insertStr]
    split <;> simp

theorem sortStrings_eq_nil (l : List String) : sortStrings l = [] ↔ l = [] := by
  cases l with
  | nil => simp [sortStrings]
  | cons x xs =>
    rw [sortStrings]
    simp [insertStr_ne_nil x (sortStrings xs)]

theorem dedupStr_eq_nil (l : List String) : dedupStr l = [] ↔ l = [] := by
  cases l with
  | nil => simp [dedupStr]
  | cons x xs => simp [dedupStr]

theorem sortDedup_eq_nil (l : List String) :
    sortStrings (dedupStr l) = [] ↔ l = [] := by
  rw [sortStrings_eq_nil, dedupStr_eq_nil]

theorem lookupJ_isSome_iff :
    ∀ (o : JObj) (k : String), (lookupJ o k).isSome = true ↔ k ∈ JObj.keys o
  | .nil, k => by simp [lookupJ, JObj.keys]
  | .cons k' v rest, k => by
    rw [lookupJ, JObj.keys]
    by_cases hk : k' = k
    · simp [hk]
    · rw [if_neg hk, List.mem_cons, lookupJ_isSome_iff rest k]
      constructor
      · exact Or.inr
      · rintro (h | h)
        · exact absurd h.symm hk
        · exact h

theorem requireCoreLib_ok (spec core : JObj)
    (h : requireCoreLib spec = .ok core) :
    lookupJ spec "core_tag_library" = some (.obj core) := by
  rw [requireCoreLib] at h
  split at h
  · rename_i o ho
    injection h with h
    rw [ho, h]
  · exact absurd h (by simp)
  · exact absurd h (by simp)

theorem isNone_false_iff (x : Option JVal) :
    (x.isNone = false) ↔ x.isSome = true := by
  cases x <;> simp

theorem unknownTagsList_nil_iff (core payload : JObj) :
    unknownTagsList core payload = [] ↔
      ∀ k ∈ JObj.keys payload, (lookupJ core k).isSome = true := by
  rw [unknownTagsList, sortDedup_eq_nil, List.filter_eq_nil_iff]
  constructor
  · intro h k hk
    have := h k hk
    rw [← isNone_false_iff]
    revert this
    cases (lookupJ core k).isNone <;> simp
  · intro h k hk
    have := h k hk
    rw [← isNone_false_iff] at this
    simp [this]

theorem checkPayloadOrderSpec_parses (spec core : JObj)
    (h : checkPayloadOrderSpec spec core = .ok ()) :
    ∀ w, getNonNull spec "payload_order" = some w →
      ∃ xs, listToStrings w = some xs := by
  intro w hw
  rw [checkPayloadOrderSpec, hw] at h
  dsimp only at h
  cases hx : listToStrings w with
  | none => rw [hx] at h; exact absurd h (by simp)
  | some xs => exact ⟨xs, rfl⟩

theorem checkPayloadOrder_iff_claimOrder (spec payload : JObj)
    (hparse : ∀ w, getNonNull spec "payload_order" = some w →
      ∃ xs, listToStrings w = some xs) :
    checkPayloadOrder spec payload = .ok () ↔ claimOrderB spec payload = true := by
  rw [checkPayloadOrder, claimOrderB]
  cases hw : getNonNull spec "payload_order" with
  | none => simp
  | some w =>
    obtain ⟨xs, hxs⟩ := hparse w hw
    dsimp only
    rw [hxs]
    dsimp only
    constructor
    · intro h
      split at h
      · exact absurd h (by simp)
      · split at h
        · exact absurd h (by simp)
        · split at h
          · exact absurd h (by simp)
          · rename_i hkeys
            rw [beq_iff_eq]
            exact not_not.mp hkeys
    · intro h
      rw [beq_iff_eq] at h
      have hmiss : (JObj.keys payload).filter (fun k => ¬ xs.contains k) = [] := by
        rw [List.filter_eq_nil_iff]
        intro k hk
        rw [h] at hk
        simp [hk]
      have hextra : xs.filter (fun k => (lookupJ payload k).isNone) = [] := by
        rw [List.filter_eq_nil_iff]
        intro k hk
        rw [← h] at hk
        have hs := (lookupJ_isSome_iff payload k).mpr hk
        cases hlk : lookupJ payload k with
        | none => rw [hlk] at hs; exact absurd hs (by simp)
        | some v => simp
      rw [if_neg (by rw [not_ne_iff, sortDedup_eq_nil]; exact hmiss),
        if_neg (by rw [not_ne_iff, sortDedup_eq_nil]; exact hextra),
        if_neg (by rw [not_ne_iff]; exact h)]

theorem missingRequired_ok (payload : JObj) :
    ∀ core, (∀ p ∈ JObj.entries core, ∃ t, p.2 = .obj t) →
      ∃ l, missingRequired payload core = .ok l ∧
        (l = [] ↔ ∀ p ∈ JObj.entries core,
          requiredTruthy (objOfD p.2) = true → (lookupJ payload p.1).isSome = true)
  | .nil, _ => ⟨[], rfl, by simp [JObj.entries, missingRequired]⟩
  | .cons tag v rest, hshape => by
    obtain ⟨t, ht⟩ := hshape (tag, v)
      (by rw [JObj.entries]; exact List.mem_cons_self _ _)
    obtain ⟨l, hl, hiff⟩ := missingRequired_ok payload rest
      (fun p hp => hshape p (by rw [JObj.entries]; exact List.mem_cons_of_mem _ hp))
    have ht' : v = .obj t := ht
    subst ht'
    rw [missingRequired]
    by_cases hmem : (lookupJ payload tag).isSome = true
    · rw [if_pos hmem]
      refine ⟨l, hl, ?_⟩
      rw [hiff, JObj.entries]
      constructor
      · intro hall p hp
        rcases List.mem_cons.mp hp with hph | hpt
        · rw [hph]
          intro _
          exact hmem
        · exact hall p hpt
      · intro hall p hp
        exact hall p (List.mem_cons_of_mem _ hp)
    · rw [if_neg hmem, hl]
      simp only [Except.map]
      by_cases hreq : requiredTruthy t = true
      · rw [if_pos hreq]
        refine ⟨tag :: l, rfl, ?_⟩
        constructor
        · intro habs
          exact absurd habs (List.cons_ne_nil _ _)
        · intro hall
          have := hall (tag, .obj t)
            (by rw [JObj.entries]; exact List.mem_cons_self _ _)
            (by dsimp only [objOfD]; exact hreq)
          exact absurd this hmem
      · rw [if_neg hreq]
        refine ⟨l, rfl, ?_⟩
        rw [hiff, JObj.entries]
        constructor
        · intro hall p hp
          rcases List.mem_cons.mp hp with hph | hpt
          · rw [hph]
            dsimp only [objOfD]
            intro hr
            exact absurd hr hreq
          · exact hall p hpt
        · intro hall p hp
          exact hall p (List.mem_cons_of_mem _ hp)

theorem requiredFieldOk_shape (x : Option JVal) (h : requiredFieldOk x = true) :
    x = none ∨ ∃ bb, x = some (.bool bb) := by
  cases x with
  | none => exact Or.inl rfl
  | some rv =>
    cases rv with
    | bool bb => exact Or.inr ⟨bb, rfl⟩
    | null => exact absurd h (by simp [requiredFieldOk])
    | num n => exact absurd h (by simp [requiredFieldOk])
    | str s => exact absurd h (by simp [requiredFieldOk])
    | arr xs => exact absurd h (by simp [requiredFieldOk])
    | obj o => exact absurd h (by simp [requiredFieldOk])

theorem checkTagDefs_shape (sf : List String) (sem : JObj) :
    ∀ lib, checkTagDefs sf sem lib = .ok () →
      ∀ p ∈ JObj.entries lib, ∃ t, p.2 = .obj t ∧
        (lookupJ t "required" = none ∨
          ∃ bb, lookupJ t "required" = some (.bool bb))
  | .nil, _ => by simp [JObj.entries]
  | .cons tag v rest, h => by
    cases v with
    | obj t =>
      rw [show checkTagDefs sf sem (JObj.cons tag (.obj t) rest) =
        (if ¬ requiredFieldOk (lookupJ t "required") then
          Except.error ("tag " ++ tag ++ " required must be a boolean when provided")
        else
          let missingFields := sortStrings
            ((dedupStr sf).filter (fun f => (lookupJ t f).isNone))
          if missingFields ≠ [] then
            Except.error ("tag " ++ tag ++ " is missing required fields: " ++
              joinComma missingFields)
          else if sf.contains "processor" ∧ ¬ processorRefOk t sem then
            Except.error ("tag " ++ tag ++ " references undefined processor")
          else checkTagDefs sf sem rest) from rfl] at h
      split at h
      · exact Except.noConfusion h
      · rename_i hreq
        have hshape := requiredFieldOk_shape (lookupJ t "required")
          (by revert hreq; cases requiredFieldOk (lookupJ t "required") <;> simp)
        dsimp only at h
        split at h
        · exact Except.noConfusion h
        · split at h
          · exact Except.noConfusion h
          · intro p hp
            rcases List.mem_cons.mp (by rw [JObj.entries] at hp; exact hp)
              with hph | hpt
            · rw [hph]
              exact ⟨t, rfl, hshape⟩
            · exact checkTagDefs_shape sf sem rest h p hpt
    | null => exact Except.noConfusion h
    | bool b => exact Except.noConfusion h
    | num n => exact Except.noConfusion h
    | str s => exact Except.noConfusion h
    | arr xs => exact Except.noConfusion h

theorem bindE_pure {α β : Type} (a : α) (f : α → Except String β) :
    ((pure a : Except String α) >>= f) = f a := rfl

theorem validateSpec_parts (spec : JObj)
    (h : validate_derivative_spec spec = .ok ()) :
    ∃ core sem sf,
      requireCoreLib spec = .ok core ∧
      checkTagDefs sf sem core = .ok () ∧
      checkPayloadOrderSpec spec core = .ok () := by
  rw [validate_derivative_spec] at h
  cases h1 : requireSpecKeys spec with
  | error e => rw [h1, bindE_err] at h; exact Except.noConfusion h
  | ok u =>
    cases u
    rw [h1, bindE_ok] at h
    cases h2 : checkExtraSpecKeys spec with
    | error e => rw [h2, bindE_err] at h; exact Except.noConfusion h
    | ok u =>
      cases u
      rw [h2, bindE_ok] at h
      cases h3 : listToStrings ((lookupJ spec "tag_definition_schema").getD .null) with
      | none => rw [h3] at h; exact Except.noConfusion h
      | some sf =>
        rw [h3] at h
        dsimp only at h
        cases h4 : requireCoreLib spec with
        | error e => rw [h4, bindE_err] at h; exact Except.noConfusion h
        | ok core =>
          rw [h4, bindE_ok] at h
          cases h5 : lookupJ spec "processor_semantics" with
          | none => rw [h5] at h; exact Except.noConfusion h
          | some sv =>
            rw [h5] at h
            cases sv with
            | obj sem =>
              dsimp only at h
              rw [bindE_pure] at h
              cases h6 : lookupJ spec "guiding_principles" with
              | none => rw [h6] at h; exact Except.noConfusion h
              | some gv =>
                rw [h6] at h
                cases gv with
                | obj g =>
                  dsimp only at h
                  rw [bindE_pure] at h
                  cases h7 : checkTagDefs sf sem core with
                  | error e => rw [h7, bindE_err] at h; exact Except.noConfusion h
                  | ok u =>
                    cases u
                    rw [h7, bindE_ok] at h
                    cases h8 : checkProtocolVersion spec with
                    | error e =>
                      rw [h8, bindE_err] at h; exact Except.noConfusion h
                    | ok u =>
                      cases u
                      rw [h8, bindE_ok] at h
                      cases h9 : checkPayloadOrderSpec spec core with
                      | error e =>
                        rw [h9, bindE_err] at h; exact Except.noConfusion h
                      | ok u =>
                        cases u
                        exact ⟨core, sem, sf, rfl, h7, h9⟩
                | null => exact Except.noConfusion h
                | bool b => exact Except.noConfusion h
                | num n => exact Except.noConfusion h
                | str s => exact Except.noConfusion h
                | arr xs => exact Except.noConfusion h
            | null => exact Except.noConfusion h
            | bool b => exact Except.noConfusion h
            | num n => exact Except.noConfusion h
            | str s => exact Except.noConfusion h
            | arr xs => exact Except.noConfusion h

theorem validate_payload_ok_parts (spec payload core : JObj)
    (hcl : requireCoreLib spec = .ok core) :
    validate_payload spec payload = .ok () ↔
      (unknownTagsList core payload = [] ∧
       checkPayloadOrder spec payload = .ok () ∧
       checkPipelinePayload spec core payload = .ok () ∧
       missingRequired payload core = .ok []) := by
  rw [validate_payload, hcl, bindE_ok]
  dsimp only
  by_cases hunk : unknownTagsList core payload = []
  · rw [if_neg (by simp [hunk])]
    rw [bindE_pure]
    cases hord : checkPayloadOrder spec payload with
    | error e => rw [bindE_err]; simp [hunk, hord]
    | ok u =>
      cases u
      rw [bindE_ok]
      cases hpipe : checkPipelinePayload spec core payload with
      | error e => rw [bindE_err]; simp [hunk, hord, hpipe]
      | ok u =>
        cases u
        rw [bindE_ok]
        cases hmiss : missingRequired payload core with
        | error e => rw [bindE_err]; simp [hunk, hord, hpipe, hmiss]
        | ok l =>
          rw [bindE_ok]
          by_cases hl : l = []
          · subst hl
            rw [if_neg (by simp)]
            exact iff_of_true rfl ⟨hunk, rfl, rfl, rfl⟩
          · rw [if_pos (by simp [hl])]
            constructor
            · intro hc; exact Except.noConfusion hc
            · rintro ⟨_, _, _, h4⟩
              injection h4 with h4
              exact absurd h4 hl
  · rw [if_pos (by simp [hunk])]
    constructor
    · intro hc; exact Except.noConfusion hc
    · rintro ⟨h1, _⟩
      exact absurd h1 hunk

/-- C5 (amended): when the spec itself validates and declares no
`processor_pipeline`, payload validation succeeds exactly under the claim's
three conditions (known tags, required tags present, and — when
`payload_order` is set — exact key order); when a pipeline is declared,
validation additionally enforces pipeline/payload processor consistency
(see the counterexample).  The `$unknown` scenario error names the key. -/
theorem c5_payload_validity (spec payload : JObj)
    (hsp : validate_derivative_spec spec = .ok ())
    (hpp : getNonNull spec "processor_pipeline" = none) :
    ((validate_payload spec payload = .ok ()) ↔
      claimPayloadConditionsB spec payload = true) ∧
    validate_payload minSpec unkPayload =
      .error "payload includes unknown tags: $unknown" := by
  refine ⟨?_, by decide⟩
  obtain ⟨core, sem, sf, hcl, htags, hords⟩ := validateSpec_parts spec hsp
  have hshape := checkTagDefs_shape sf sem core htags
  have hparse := checkPayloadOrderSpec_parses spec core hords
  have hpipe : checkPipelinePayload spec core payload = .ok () := by
    rw [checkPipelinePayload, hpp]
  have hcc : claimCore spec = core := by
    rw [claimCore, requireCoreLib_ok spec core hcl]
  obtain ⟨l, hml, hmiff⟩ := missingRequired_ok payload core
    (fun p hp => Exists.imp (fun t ht => ht.1) (hshape p hp))
  rw [validate_payload_ok_parts spec payload core hcl,
    claimPayloadConditionsB, Bool.and_eq_true, Bool.and_eq_true]
  constructor
  · rintro ⟨h1, h2, _, h4⟩
    have hle : l = [] := by
      rw [hml] at h4
      exact Except.ok.inj h4
    have hall := hmiff.mp hle
    refine ⟨⟨?_, ?_⟩, ?_⟩
    · rw [claimUnknownB, hcc, List.all_eq_true]
      intro k hk
      exact (unknownTagsList_nil_iff core payload).mp h1 k hk
    · rw [claimRequiredB, hcc, List.all_eq_true]
      intro p hp
      by_cases hr : lookupJ (objOfD p.2) "required" = some (.bool false)
      · rw [if_pos hr]
      · rw [if_neg hr]
        apply hall p hp
        obtain ⟨t, hpt, hsh⟩ := hshape p hp
        rw [hpt]
        dsimp only [objOfD]
        rw [hpt] at hr
        dsimp only [objOfD] at hr
        rcases hsh with hnone | ⟨bb, hbb⟩
        · simp [requiredTruthy, hnone]
        · cases bb with
          | true => simp [requiredTruthy, hbb, truthyJ]
          | false => exact absurd hbb hr
    · exact (checkPayloadOrder_iff_claimOrder spec payload hparse).mp h2
  · rintro ⟨⟨h1, h2⟩, h3⟩
    rw [claimUnknownB, hcc, List.all_eq_true] at h1
    rw [claimRequiredB, hcc, List.all_eq_true] at h2
    have hle : l = [] := by
      apply hmiff.mpr
      intro p hp hrt
      have hches := h2 p hp
      by_cases hr : lookupJ (objOfD p.2) "required" = some (.bool false)
      · obtain ⟨t, hpt, hsh⟩ := hshape p hp
        rw [hpt] at hr hrt
        dsimp only [objOfD] at hr hrt
        rw [requiredTruthy, hr] at hrt
        exact absurd hrt (by simp [truthyJ])
      · rw [if_neg hr] at hches
        exact hches
    refine ⟨?_, ?_, hpipe, ?_⟩
    · rw [unknownTagsList_nil_iff]
      exact h1
    · exact (checkPayloadOrder_iff_claimOrder spec payload hparse).mpr h3
    · rw [hml, hle]

/-- C5 counterexample: a spec that validates but declares a processor
pipeline whose order opposes the payload's processors — the claim's three
conditions hold, yet payload validation fails. -/
theorem c5_payload_validity_counterexample :
    validate_derivative_spec pipeSpec = .ok () ∧
    claimPayloadConditionsB pipeSpec pipePayload = true ∧
    validate_payload pipeSpec pipePayload =
      .error "processor_pipeline order does not match payload order" :=
  ⟨by decide, by decide, by decide⟩

theorem c5_payload_validity_witness :
    ((validate_payload minSpec minPayload = .ok ()) ↔
      claimPayloadConditionsB minSpec minPayload = true) ∧
    validate_payload minSpec unkPayload =
      .error "payload includes unknown tags: $unknown" :=
  c5_payload_validity minSpec minPayload (by decide) (by decide)
